import Mathlib

/-!
Verification development for the `gae` repository (Go).

Part A embeds the order-preserving primitive codec of
`src/unnamed/part_000` (package `memory`): length-prefixed byte
sequences, the XOR bit-transformed big-endian float64 encoding, and the
microsecond-truncated timestamp encoding.

Bytes are modelled as `Nat` values (each `< 256` where it matters), a
buffer as a `List Nat` consumed from the front.  Go `float64` values are
represented by their IEEE-754 bit patterns (a `Nat < 2^64`), exactly the
view `math.Float64bits`/`math.Float64frombits` give the source.  All
readers return the decode result together with the buffer state that
remains after the call, mirroring how `bytes.Buffer` consumption is
observable in Go.
-/

set_option maxRecDepth 8000
set_option exponentiation.threshold 4000

/-- Buffer of bytes, consumed from the front. -/
abbrev Buf := List Nat

instance {ε α : Type} [DecidableEq ε] [DecidableEq α] : DecidableEq (Except ε α)
  | .ok a, .ok b => decidable_of_iff (a = b) (by simp)
  | .ok _, .error _ => .isFalse (by simp)
  | .error _, .ok _ => .isFalse (by simp)
  | .error a, .error b => decidable_of_iff (a = b) (by simp)

/-- Decode failures of the primitive codec, mirroring the error cases of
`part_000` and of `funnybase.ReadUint`. -/
inductive CodecErr where
  /-- Truncated varint / empty buffer (`io.EOF` style failures). -/
  | eof : CodecErr
  /-- The guard in `readBytes`: a declared length above 2 MiB. -/
  | sizeLimit (n : Nat) : CodecErr
  /-- The guard in `readBytes`: fewer bytes available than declared. -/
  | shortRead (want got : Nat) : CodecErr
  deriving DecidableEq, Repr

/-- Fuel-driven worker for `beBytesMin`; the fuel only serves structural
termination and never runs out when it starts at `n` itself. -/
def beBytesMinAux : Nat → Nat → List Nat
  | _, 0 => []
  | 0, _ + 1 => []
  | fuel + 1, n + 1 => beBytesMinAux fuel ((n + 1) / 256) ++ [(n + 1) % 256]

/-- Minimal big-endian byte string of `n` (empty for `n = 0`). -/
def beBytesMin (n : Nat) : List Nat := beBytesMinAux n n

/-- Big-endian value of a byte string (`binary.BigEndian` accumulation). -/
def fromBE (l : List Nat) : Nat := l.foldl (fun a b => a * 256 + b) 0

/-- Modelled from the spec: `funnybase.WriteUint` (the varint used by the
codec) is not part of this repository; the spec describes it as a
"variable-length, self-describing length-prefixed big-endian scheme".
We model it as a length byte followed by the minimal big-endian bytes of
the value. -/
def writeUint (n : Nat) : Buf :=
  (beBytesMin n).length :: beBytesMin n

/-- Modelled from the spec: `funnybase.ReadUint`, inverse of `writeUint`;
reads the length byte and then that many big-endian payload bytes,
failing on a truncated buffer. -/
def readUint (buf : Buf) : Except CodecErr Nat × Buf :=
  match buf with
  | [] => (.error .eof, [])
  | c :: rest =>
    if c ≤ rest.length then (.ok (fromBE (rest.take c)), rest.drop c)
    else (.error .eof, rest.drop c)

/-- Go `writeBytes`: `funnybase.WriteUint(buf, len(b))` then the raw bytes. -/
def writeBytes (b : List Nat) : Buf := writeUint b.length ++ b

/-- Go `readBytes`: read the varint length, reject `> 2*1024*1024`, then
read that many bytes, failing if fewer are available.  The second
component is the buffer state after the call (`bytes.Buffer.Read`
consumes what it returns). -/
def readBytes (buf : Buf) : Except CodecErr (List Nat) × Buf :=
  match readUint buf with
  | (.error e, rest) => (.error e, rest)
  | (.ok val, rest) =>
    if val > 2 * 1024 * 1024 then (.error (.sizeLimit val), rest)
    else
      let retBuf := rest.take val
      if retBuf.length ≠ val then (.error (.shortRead val retBuf.length), rest.drop val)
      else (.ok retBuf, rest.drop val)

/-- Go `writeString`: identical to `writeBytes` on the string's bytes
(strings are modelled by their byte sequences). -/
def writeString (s : List Nat) : Buf := writeUint s.length ++ s

/-- Go `readString`: `readBytes` followed by the (identity, in this
model) bytes-to-string conversion. -/
def readString (buf : Buf) : Except CodecErr (List Nat) × Buf :=
  readBytes buf

/-- The 8 big-endian bytes of a `uint64`, exactly as
`binary.BigEndian.PutUint64` lays them out. -/
def toBE8 (v : Nat) : List Nat :=
  [(v >>> 56) % 256, (v >>> 48) % 256, (v >>> 40) % 256, (v >>> 32) % 256,
   (v >>> 24) % 256, (v >>> 16) % 256, (v >>> 8) % 256, v % 256]

/-- Big-endian digits of fixed width `k`, most significant first; used
only to reason about `toBE8` by induction. -/
def beBytesF : Nat → Nat → List Nat
  | 0, _ => []
  | k + 1, x => (x / 256 ^ k) % 256 :: beBytesF k x

/-- The monotone bit transform of Go `writeFloat64`:
`bits ^ (-(bits>>63) | (1<<63))`, with Go's wrapping `uint64` negation
`-x = (2^64 - x) % 2^64`. -/
def floatXform (bits : Nat) : Nat :=
  bits ^^^ (((2 ^ 64 - bits >>> 63) % 2 ^ 64) ||| (1 <<< 63))

/-- The inverse transform of Go `readFloat64`:
`bits ^ (((bits>>63) - 1) | (1<<63))`, with wrapping `uint64`
subtraction. -/
def floatXformInv (bits : Nat) : Nat :=
  bits ^^^ (((bits >>> 63 + 2 ^ 64 - 1) % 2 ^ 64) ||| (1 <<< 63))

/-- Go `writeFloat64` applied to the IEEE-754 bit pattern `bits`:
transform, then 8 big-endian bytes. -/
def writeFloat64 (bits : Nat) : Buf := toBE8 (floatXform bits)

/-- Go `readFloat64`: reads 8 bytes (for `bytes.Buffer`, `Read` fails
only on an empty buffer, otherwise copies what is available, leaving the
rest of `data` zero), recovers the `uint64`, and applies the inverse
transform. -/
def readFloat64 (buf : Buf) : Except CodecErr Nat × Buf :=
  if buf.isEmpty then (.error .eof, buf)
  else
    let data := buf.take 8 ++ List.replicate (8 - (buf.take 8).length) 0
    (.ok (floatXformInv (fromBE data)), buf.drop 8)

/-- Go `time.Time`, reduced to the fields the codec reads: seconds since
the Unix epoch (`Unix()`) and the nanosecond component (`Nanosecond()`,
in `[0, 1e9)`). -/
structure GoTime where
  sec : Int
  nsec : Nat
  deriving DecidableEq, Repr

/-- Go conversion `uint64(z)` of an `int64`, i.e. reduction mod `2^64`. -/
def u64ofInt (z : Int) : Nat := (z % (2 ^ 64 : Int)).toNat

/-- Go `writeTime`: truncate to microseconds and write
`uint64(t.Unix())*1e6 + uint64(t.Nanosecond()/1e3)` as a varint
(arithmetic wraps at `2^64`). -/
def writeTime (t : GoTime) : Buf :=
  writeUint ((u64ofInt t.sec * 1000000 + t.nsec / 1000) % 2 ^ 64)

/-- Go `readTime`: read the varint and rebuild
`time.Unix(int64(v/1e6), int64((v%1e6)*1e3))`. -/
def readTime (buf : Buf) : Except CodecErr GoTime × Buf :=
  match readUint buf with
  | (.error e, rest) => (.error e, rest)
  | (.ok v, rest) => (.ok ⟨Int.ofNat (v / 1000000), v % 1000000 * 1000⟩, rest)

/-- Go `writeGeoPoint`: latitude then longitude, each as a float64
(both given by their bit patterns). -/
def writeGeoPoint (lat lng : Nat) : Buf :=
  writeFloat64 lat ++ writeFloat64 lng

/-- Go `readGeoPoint`: two sequential float64 reads. -/
def readGeoPoint (buf : Buf) : Except CodecErr (Nat × Nat) × Buf :=
  match readFloat64 buf with
  | (.error e, rest) => (.error e, rest)
  | (.ok lat, rest) =>
    match readFloat64 rest with
    | (.error e, rest2) => (.error e, rest2)
    | (.ok lng, rest2) => (.ok (lat, lng), rest2)

/-- Strict lexicographic order on byte strings, compared as unsigned
bytes (a proper nonempty extension is greater). -/
def lexLtb : List Nat → List Nat → Bool
  | _, [] => false
  | [], _ :: _ => true
  | x :: xs, y :: ys => x < y || (x = y && lexLtb xs ys)

/-! IEEE-754 double semantics on bit patterns, used to state order
preservation.  A pattern splits into sign, exponent and mantissa; its
value is the exact rational `(-1)^s * magnitude`, and the two infinities
are mapped to `±2^3000 / 2^1075`, which lies strictly outside the finite
double range, so the induced order on non-NaN patterns is exactly the
IEEE comparison order. -/

/-- Sign bit of a float64 bit pattern. -/
def floatSign (w : Nat) : Nat := w >>> 63

/-- Exponent field of a float64 bit pattern. -/
def floatExpo (w : Nat) : Nat := w >>> 52 % 2 ^ 11

/-- Mantissa field of a float64 bit pattern. -/
def floatMant (w : Nat) : Nat := w % 2 ^ 52

/-- Whether the pattern denotes a NaN (maximal exponent, nonzero
mantissa). -/
def floatIsNaN (w : Nat) : Bool := floatExpo w == 2047 && floatMant w != 0

/-- Magnitude of the float times the fixed scale `2^1075` (a `Nat`);
infinity is sent above every finite magnitude. -/
def floatMagScaled (w : Nat) : Nat :=
  if floatExpo w = 2047 then 2 ^ 3000
  else if floatExpo w = 0 then 2 * floatMant w
  else (2 ^ 52 + floatMant w) * 2 ^ floatExpo w

/-- Exact value of a (non-NaN) float64 bit pattern, times the fixed
positive scale `2^1075` (so an integer); scaling by a positive constant
does not change the order, so comparing these integers is exactly the
IEEE comparison of the denoted values. -/
def floatVal (w : Nat) : Int :=
  (if floatSign w = 1 then -1 else 1) * (floatMagScaled w : Int)

/-- The IEEE `<` comparison on non-NaN float64 bit patterns. -/
def floatLt (a b : Nat) : Prop := floatVal a < floatVal b

instance (a b : Nat) : Decidable (floatLt a b) := by
  unfold floatLt; infer_instance

/-! Part B: the structural mapping engine of
`src/service/rawdatastore/datastore_impl.go`. -/

inductive IndexSetting where
  | ShouldIndex | NoIndex
  deriving DecidableEq, Repr

inductive GoToggle where
  | auto | on | off
  deriving DecidableEq, Repr

inductive GoTy where
  | intT | boolT | stringT | floatT | timeT | geoT | toggleT | uint8T
  | keyIface
  | otherIface (d : String)
  | sliceT (elem : GoTy)
  | structRef (tname : String)
  deriving DecidableEq, Repr

inductive PropValue where
  | int64V (i : Int)
  | boolV (b : Bool)
  | stringV (s : String)
  | blobKeyV (k : String)
  | floatV (w : Nat)
  | bytesV (b : List Nat)
  | byteStringV (b : List Nat)
  | timeV (t : GoTime)
  | geoV (lat lng : Nat)
  | keyV (k : String)
  | nullV
  deriving DecidableEq, Repr

structure Property where
  value : PropValue
  indexSetting : IndexSetting
  deriving DecidableEq, Repr

abbrev PropertyMap := List (String × List Property)

inductive FieldVal where
  | intF (i : Int)
  | boolF (b : Bool)
  | stringF (s : String)
  | floatF (w : Nat)
  | bytesF (b : List Nat)
  | timeF (t : GoTime)
  | geoF (lat lng : Nat)
  | keyF (k : Option String)
  | toggleF (t : GoToggle)
  | subF (fields : List FieldVal)
  | sliceF (elems : List FieldVal)

inductive MetaVal where
  | strM (s : String) | intM (i : Int) | boolM (b : Bool)
  deriving DecidableEq, Repr

inductive SchemaErr where
  | recursiveSentinel
  | recursiveField (f : String)
  | fieldProblem (f : String) (e : SchemaErr)
  | metaDup (n : String)
  | metaBadType (n : String) (d : String)
  | invalidName (n : String)
  | nonConcreteInterface (f : String)
  | sliceOfSlices (f : String)
  | invalidFieldType (n : String)
  | repeatedName (n : String)
  | unknownType (t : String)
  | outOfFuel
  deriving DecidableEq, Repr

mutual
inductive StructTag where
  | mk (name : String) (idxSetting : IndexSetting) (isSlice : Bool)
      (substructCodec : Option StructCodec) (convert : Bool)
      (metaVal : Option MetaVal) (canSet : Bool) (fieldTy : GoTy)
inductive StructCodec where
  | mk (byMeta : List (String × Nat)) (byName : List (String × Nat))
      (byIndex : List StructTag) (hasSlice : Bool) (problem : Option SchemaErr)
end

def StructTag.name : StructTag → String
  | .mk n _ _ _ _ _ _ _ => n
def StructTag.idxSetting : StructTag → IndexSetting
  | .mk _ s _ _ _ _ _ _ => s
def StructTag.isSlice : StructTag → Bool
  | .mk _ _ s _ _ _ _ _ => s
def StructTag.substructCodec : StructTag → Option StructCodec
  | .mk _ _ _ s _ _ _ _ => s
def StructTag.convert : StructTag → Bool
  | .mk _ _ _ _ c _ _ _ => c
def StructTag.metaVal : StructTag → Option MetaVal
  | .mk _ _ _ _ _ m _ _ => m
def StructTag.canSet : StructTag → Bool
  | .mk _ _ _ _ _ _ c _ => c
def StructTag.fieldTy : StructTag → GoTy
  | .mk _ _ _ _ _ _ _ t => t

def StructCodec.byMeta : StructCodec → List (String × Nat)
  | .mk m _ _ _ _ => m
def StructCodec.byName : StructCodec → List (String × Nat)
  | .mk _ n _ _ _ => n
def StructCodec.byIndex : StructCodec → List StructTag
  | .mk _ _ i _ _ => i
def StructCodec.hasSlice : StructCodec → Bool
  | .mk _ _ _ h _ => h
def StructCodec.problem : StructCodec → Option SchemaErr
  | .mk _ _ _ _ p => p

def lookupAL {α : Type} : List (String × α) → String → Option α
  | [], _ => none
  | (k, a) :: rest, key => if k = key then some a else lookupAL rest key

def setAL {α : Type} : List (String × α) → String → α → List (String × α)
  | [], key, a => [(key, a)]
  | (k, b) :: rest, key, a =>
    if k = key then (key, a) :: rest else (k, b) :: setAL rest key a

def pmAppend (pm : PropertyMap) (name : String) (p : Property) : PropertyMap :=
  setAL pm name ((lookupAL pm name).getD [] ++ [p])

inductive SaveErr where
  | problem (e : SchemaErr)
  | tooManyIndexedProperties
  | badValue
  | metaFailure
  | outOfFuel
  deriving DecidableEq, Repr

def propValueOf : FieldVal → Except SaveErr PropValue
  | .intF i => .ok (.int64V i)
  | .boolF b => .ok (.boolV b)
  | .stringF s => .ok (.stringV s)
  | .floatF w => .ok (.floatV w)
  | .bytesF b => .ok (.bytesV b)
  | .timeF t => .ok (.timeV t)
  | .geoF a b => .ok (.geoV a b)
  | .keyF (some k) => .ok (.keyV k)
  | .keyF none => .ok .nullV
  | .toggleF _ => .error .badValue
  | .subF _ => .error .badValue
  | .sliceF _ => .error .badValue

def savePropF (rec : StructCodec → List FieldVal → PropertyMap → String → IndexSetting →
      Except SaveErr (PropertyMap × Nat))
    (st : StructTag) (name : String) (is1 : IndexSetting) (v : FieldVal)
    (pm : PropertyMap) (acc : Nat) : Except SaveErr (PropertyMap × Nat) :=
  match st.substructCodec with
  | some sub =>
    match v with
    | .subF fs =>
      match rec sub fs pm name is1 with
      | .error e => .error e
      | .ok (pm2, count) =>
        if 20000 < acc + count then .error .tooManyIndexedProperties
        else .ok (pm2, acc + count)
    | _ => .error .badValue
  | none =>
    match propValueOf v with
    | .error e => .error e
    | .ok pv =>
      let pm2 := pmAppend pm name (Property.mk pv is1)
      if is1 = .ShouldIndex then
        if 20000 < acc + 1 then .error .tooManyIndexedProperties
        else .ok (pm2, acc + 1)
      else .ok (pm2, acc)

def saveElemsF (rec : StructCodec → List FieldVal → PropertyMap → String → IndexSetting →
      Except SaveErr (PropertyMap × Nat))
    (st : StructTag) (name : String) (is1 : IndexSetting) :
    List FieldVal → PropertyMap → Nat → Except SaveErr (PropertyMap × Nat)
  | [], pm, acc => .ok (pm, acc)
  | e :: rest, pm, acc =>
    match savePropF rec st name is1 e pm acc with
    | .error err => .error err
    | .ok (pm2, acc2) => saveElemsF rec st name is1 rest pm2 acc2

def saveFieldsF (rec : StructCodec → List FieldVal → PropertyMap → String → IndexSetting →
      Except SaveErr (PropertyMap × Nat)) :
    List (StructTag × FieldVal) → PropertyMap → String → IndexSetting → Nat →
    Except SaveErr (PropertyMap × Nat)
  | [], pm, _, _, acc => .ok (pm, acc)
  | (st, fv) :: rest, pm, pfx, is, acc =>
    if st.name = "-" then saveFieldsF rec rest pm pfx is acc
    else
      let name := pfx ++ st.name
      let is1 := if st.idxSetting = .NoIndex then .NoIndex else is
      if st.isSlice then
        match fv with
        | .sliceF es =>
          match saveElemsF rec st name is1 es pm acc with
          | .error e => .error e
          | .ok (pm2, acc2) => saveFieldsF rec rest pm2 pfx is acc2
        | _ => .error .badValue
      else
        match savePropF rec st name is1 fv pm acc with
        | .error e => .error e
        | .ok (pm2, acc2) => saveFieldsF rec rest pm2 pfx is acc2

/-- Go `structPLS.save`: the problem short-circuit, then the field walk
accumulating the indexed-property count; `fuel` only bounds nesting
depth of the codec tree (the Go recursion is bounded by the finite,
acyclic codec structure). -/
def structPLS_save : Nat → StructCodec → List FieldVal → PropertyMap → String → IndexSetting →
    Except SaveErr (PropertyMap × Nat)
  | 0, _, _, _, _, _ => .error .outOfFuel
  | fuel + 1, c, v, pm, pfx, is =>
    match c.problem with
    | some e => .error (.problem e)
    | none => saveFieldsF (structPLS_save fuel) (c.byIndex.zip v) pm pfx is 0

def metaProp : MetaVal → PropValue
  | .strM s => .stringV s
  | .intM i => .int64V i
  | .boolM b => .boolV b

def zeroOfTy : GoTy → FieldVal
  | .intT => .intF 0
  | .boolT => .boolF false
  | .stringT => .stringF ""
  | .floatT => .floatF 0
  | .timeT => .timeF ⟨0, 0⟩
  | .geoT => .geoF 0 0
  | .toggleT => .toggleF .auto
  | .uint8T => .intF 0
  | .keyIface => .keyF none
  | .otherIface _ => .keyF none
  | .sliceT .uint8T => .bytesF []
  | .sliceT _ => .sliceF []
  | .structRef _ => .subF []

inductive OpErr where
  | problem (e : SchemaErr)
  | metaUnset
  | cannotSet (k : String)
  | badMetaValue
  deriving DecidableEq, Repr

/-- Direct Bool form of the `reflect.DeepEqual(zero, f)` test of
`GetMeta`, comparing a field value against the zero value of its type. -/
def isZeroOfTy (t : GoTy) (f : FieldVal) : Bool :=
  match t, f with
  | .intT, .intF i => i == 0
  | .boolT, .boolF b => b == false
  | .stringT, .stringF s => s == ""
  | .floatT, .floatF w => w == 0
  | .timeT, .timeF tv => tv == ⟨0, 0⟩
  | .geoT, .geoF a b => a == 0 && b == 0
  | .toggleT, .toggleF tg => tg == .auto
  | .uint8T, .intF i => i == 0
  | .keyIface, .keyF k => k.isNone
  | .sliceT .uint8T, .bytesF b => b.isEmpty
  | .sliceT _, .sliceF es => es.isEmpty
  | .structRef _, .subF fs => fs.isEmpty
  | _, _ => false

def metaOfField : FieldVal → MetaVal
  | .intF i => .intM i
  | .stringF s => .strM s
  | .toggleF t => .boolM (t == .on)
  | .boolF b => .boolM b
  | _ => .strM ""

/-- Go `structPLS.GetMeta`. -/
def structPLS_GetMeta (c : StructCodec) (v : List FieldVal) (key : String) :
    Except OpErr MetaVal :=
  match c.problem with
  | some e => .error (.problem e)
  | none =>
    match lookupAL c.byMeta key with
    | none => .error .metaUnset
    | some idx =>
      match c.byIndex.get? idx, v.get? idx with
      | some st, some f =>
        let dflt := st.metaVal
        let chosen :=
          if st.canSet && !(isZeroOfTy st.fieldTy f) then some (metaOfField f) else dflt
        match chosen with
        | some m => .ok m
        | none => .error .badMetaValue
      | _, _ => .error .badMetaValue

/-- Go `structPLS.SetMeta`. -/
def structPLS_SetMeta (c : StructCodec) (v : List FieldVal) (key : String) (val : MetaVal) :
    Except OpErr (List FieldVal) :=
  match c.problem with
  | some e => .error (.problem e)
  | none =>
    match lookupAL c.byMeta key with
    | none => .error .metaUnset
    | some idx =>
      match c.byIndex.get? idx with
      | none => .error .badMetaValue
      | some st =>
        if ¬ st.canSet then .error (.cannotSet key)
        else
          match st.fieldTy, val with
          | .toggleT, .boolM b => .ok (v.set idx (.toggleF (if b then .on else .off)))
          | .intT, .intM i => .ok (v.set idx (.intF i))
          | .stringT, .strM s => .ok (v.set idx (.stringF s))
          | _, _ => .error .badMetaValue

/-- Go `structPLS.Save`: inner save into a fresh map, then optionally the
meta properties under their reserved `$`-names. -/
def structPLS_Save (fuel : Nat) (c : StructCodec) (v : List FieldVal) (withMeta : Bool) :
    Except SaveErr PropertyMap :=
  match structPLS_save fuel c v [] "" .ShouldIndex with
  | .error e => .error e
  | .ok (pm, _) =>
    if withMeta then
      let rec go : List (String × Nat) → PropertyMap → Except SaveErr PropertyMap
        | [], acc => .ok acc
        | (k, _) :: rest, acc =>
          match structPLS_GetMeta c v k with
          | .error _ => .error .metaFailure
          | .ok m => go rest (setAL acc ("$" ++ k) [Property.mk (metaProp m) .NoIndex])
      go c.byMeta pm
    else .ok pm

def structPLS_Problem (c : StructCodec) : Option SchemaErr := c.problem

/-! Load. -/

structure ErrFieldMismatch where
  fieldName : String
  reason : String
  deriving DecidableEq, Repr

inductive LoadErr where
  | problem (e : SchemaErr)
  | multi (errs : List ErrFieldMismatch)
  deriving DecidableEq, Repr

def propValueTypeName : PropValue → String
  | .int64V _ => "int64"
  | .boolV _ => "bool"
  | .stringV _ => "string"
  | .blobKeyV _ => "blobstore.Key"
  | .floatV _ => "float64"
  | .bytesV _ => "[]uint8"
  | .byteStringV _ => "rawdatastore.ByteString"
  | .timeV _ => "time.Time"
  | .geoV _ _ => "rawdatastore.GeoPoint"
  | .keyV _ => "rawdatastore.Key"
  | .nullV => "<nil>"

def goTyName : GoTy → String
  | .intT => "int64"
  | .boolT => "bool"
  | .stringT => "string"
  | .floatT => "float64"
  | .timeT => "time.Time"
  | .geoT => "rawdatastore.GeoPoint"
  | .toggleT => "rawdatastore.Toggle"
  | .uint8T => "uint8"
  | .keyIface => "rawdatastore.Key"
  | .otherIface d => d
  | .sliceT _ => "slice"
  | .structRef tn => tn

def typeMismatchReason (pv : PropValue) (t : GoTy) : String :=
  "type mismatch: " ++ propValueTypeName pv ++ " versus " ++ goTyName t

def elemTyOf (st : StructTag) : GoTy :=
  if st.isSlice then
    match st.fieldTy with
    | .sliceT e => e
    | t => t
  else st.fieldTy

/-- One leaf coercion step of `loadInner` (the big `switch knd`):
`ok none` means "accepted, field left untouched", `ok (some fv)` means
"accepted, field set to fv", `error r` is a per-field mismatch reason. -/
def leafSet (t : GoTy) (pv : PropValue) : Except String (Option FieldVal) :=
  match t with
  | .intT =>
    match pv with
    | .int64V x => .ok (some (.intF x))
    | .nullV => .ok (some (.intF 0))
    | _ => .error (typeMismatchReason pv t)
  | .uint8T =>
    match pv with
    | .int64V x => .ok (some (.intF x))
    | .nullV => .ok (some (.intF 0))
    | _ => .error (typeMismatchReason pv t)
  | .boolT =>
    match pv with
    | .boolV b => .ok (some (.boolF b))
    | .nullV => .ok (some (.boolF false))
    | _ => .error (typeMismatchReason pv t)
  | .stringT =>
    match pv with
    | .blobKeyV k => .ok (some (.stringF k))
    | .stringV s => .ok (some (.stringF s))
    | .nullV => .ok none
    | _ => .error (typeMismatchReason pv t)
  | .floatT =>
    match pv with
    | .floatV w => .ok (some (.floatF w))
    | .nullV => .ok (some (.floatF 0))
    | _ => .error (typeMismatchReason pv t)
  | .keyIface =>
    match pv with
    | .keyV k => .ok (some (.keyF (some k)))
    | .nullV => .ok none
    | _ => .error (typeMismatchReason pv t)
  | .timeT =>
    match pv with
    | .timeV tv => .ok (some (.timeF tv))
    | .nullV => .ok (some (.timeF ⟨0, 0⟩))
    | _ => .error (typeMismatchReason pv t)
  | .geoT =>
    match pv with
    | .geoV la ln => .ok (some (.geoF la ln))
    | .nullV => .ok (some (.geoF 0 0))
    | _ => .error (typeMismatchReason pv t)
  | .sliceT .uint8T =>
    match pv with
    | .bytesV b => .ok (some (.bytesF b))
    | .byteStringV b => .ok (some (.bytesF b))
    | _ => .error ("[panic] helper: impossible: " ++ typeMismatchReason pv t)
  | _ => .error ("[panic] helper: impossible: " ++ typeMismatchReason pv t)

def zeroFieldOf (zc : StructCodec → FieldVal) (st : StructTag) : FieldVal :=
  if st.isSlice then .sliceF []
  else
    match st.substructCodec with
    | some sub => zc sub
    | none => zeroOfTy st.fieldTy

def zeroOfCodecF : Nat → StructCodec → FieldVal
  | 0, _ => .subF []
  | fuel + 1, c => .subF (c.byIndex.map (zeroFieldOf (zeroOfCodecF fuel)))

/-- Go `loadInner`: resolve the (possibly dotted) property name through
nested codecs, then coerce one property value into the resolved field. -/
def loadInnerF : Nat → StructCodec → List FieldVal → Nat → String → Property → Bool →
    List FieldVal × Option String
  | 0, _, sval, _, _, _, _ => (sval, some "(model) schema too deep")
  | fuel + 1, codec, sval, index, name, p, requireSlice =>
    match lookupAL codec.byName name with
    | none => (sval, some "no such struct field")
    | some fi =>
      match codec.byIndex.get? fi, sval.get? fi with
      | some st, some fv =>
        match st.substructCodec with
        | some sub =>
          let rel : String := ⟨name.data.drop st.name.data.length⟩
          if st.isSlice then
            match fv with
            | .sliceF es =>
              let es1 := es ++ List.replicate (index + 1 - es.length) (zeroOfCodecF fuel sub)
              match es1.get? index with
              | some (.subF fs) =>
                match loadInnerF fuel sub fs index rel p false with
                | (fs2, reason) =>
                  (sval.set fi (.sliceF (es1.set index (.subF fs2))), reason)
              | _ => (sval, some "(model) malformed value")
            | _ => (sval, some "(model) malformed value")
          else
            match fv with
            | .subF fs =>
              match loadInnerF fuel sub fs index rel p requireSlice with
              | (fs2, reason) => (sval.set fi (.subF fs2), reason)
            | _ => (sval, some "(model) malformed value")
        | none =>
          let ety := elemTyOf st
          if st.isSlice then
            match fv with
            | .sliceF es =>
              match leafSet ety p.value with
              | .error r => (sval, some r)
              | .ok none => (sval.set fi (.sliceF (es ++ [zeroOfTy ety])), none)
              | .ok (some nv) => (sval.set fi (.sliceF (es ++ [nv])), none)
            | _ => (sval, some "(model) malformed value")
          else
            if requireSlice then
              (sval, some "multiple-valued property requires a slice field type")
            else
              match leafSet ety p.value with
              | .error r => (sval, some r)
              | .ok none => (sval, none)
              | .ok (some nv) => (sval.set fi nv, none)
      | _, _ => (sval, some "(model) malformed value")

def loadPropsList (fuel : Nat) (c : StructCodec) (name : String) (multiple : Bool) :
    List Property → Nat → List FieldVal → List ErrFieldMismatch →
    List FieldVal × List ErrFieldMismatch
  | [], _, v, errs => (v, errs)
  | p :: rest, i, v, errs =>
    match loadInnerF fuel c v i name p multiple with
    | (v2, none) => loadPropsList fuel c name multiple rest (i + 1) v2 errs
    | (v2, some r) => loadPropsList fuel c name multiple rest (i + 1) v2 (errs ++ [⟨name, r⟩])

def loadEntries (fuel : Nat) (c : StructCodec) :
    List (String × List Property) → List FieldVal → List ErrFieldMismatch →
    List FieldVal × List ErrFieldMismatch
  | [], v, errs => (v, errs)
  | (name, props) :: rest, v, errs =>
    match loadPropsList fuel c name (decide (1 < props.length)) props 0 v errs with
    | (v2, errs2) => loadEntries fuel c rest v2 errs2

/-- Go `structPLS.Load`: the problem short-circuit, then every value of
every entry through `loadInner`, mismatches collected into one
multi-error while the successfully converted fields stay populated. -/
def structPLS_Load (fuel : Nat) (c : StructCodec) (v : List FieldVal) (pm : PropertyMap) :
    List FieldVal × Option LoadErr :=
  match c.problem with
  | some e => (v, some (.problem e))
  | none =>
    match loadEntries fuel c pm v [] with
    | (v2, errs) => (v2, if errs.isEmpty then none else some (.multi errs))


/-! Pure indexed-property counting and well-typedness, used to state the
indexed-property-ceiling claim. -/

def countPropF (cnt : StructCodec → List FieldVal → IndexSetting → Nat)
    (st : StructTag) (is1 : IndexSetting) (v : FieldVal) : Nat :=
  match st.substructCodec with
  | some sub =>
    match v with
    | .subF fs => cnt sub fs is1
    | _ => 0
  | none => if is1 = .ShouldIndex then 1 else 0

def countFieldsF (cnt : StructCodec → List FieldVal → IndexSetting → Nat) :
    List (StructTag × FieldVal) → IndexSetting → Nat
  | [], _ => 0
  | (st, fv) :: rest, is =>
    (if st.name = "-" then 0
     else
       let is1 := if st.idxSetting = .NoIndex then .NoIndex else is
       if st.isSlice then
         match fv with
         | .sliceF es => (es.map (countPropF cnt st is1)).sum
         | _ => 0
       else countPropF cnt st is1 fv) + countFieldsF cnt rest is

/-- The number of should-index property values the flattened save of a
record would produce. -/
def shouldIdxCount : Nat → StructCodec → List FieldVal → IndexSetting → Nat
  | 0, _, _, _ => 0
  | fuel + 1, c, v, is => countFieldsF (shouldIdxCount fuel) (c.byIndex.zip v) is

def wtPropF (wt : StructCodec → List FieldVal → Bool) (st : StructTag) (v : FieldVal) : Bool :=
  match st.substructCodec with
  | some sub =>
    match v with
    | .subF fs => sub.problem == none && wt sub fs
    | _ => false
  | none => (propValueOf v).isOk

def wtFieldsF (wt : StructCodec → List FieldVal → Bool) :
    List (StructTag × FieldVal) → Bool
  | [] => true
  | (st, fv) :: rest =>
    (st.name == "-" ||
      (if st.isSlice then
        match fv with
        | .sliceF es => es.all (wtPropF wt st)
        | _ => false
      else wtPropF wt st fv)) && wtFieldsF wt rest

/-- Whether a record value structurally matches its codec, deep enough
for the given fuel: every nested record fits its sub-codec (which must be
problem-free) and every leaf value converts to a property value. -/
def wellTyped : Nat → StructCodec → List FieldVal → Bool
  | 0, _, _ => false
  | fuel + 1, c, v =>
    c.byIndex.length == v.length && wtFieldsF (wellTyped fuel) (c.byIndex.zip v)

/-! Schema construction (`getStructCodecLocked`). -/

structure GoField where
  fname : String
  tag : String
  exported : Bool
  anonymous : Bool
  ftype : GoTy
  deriving DecidableEq, Repr

abbrev TypeEnv := List (String × List GoField)
abbrev CodecCache := List (String × StructCodec)

/-- Character-list split at the first occurrence of a separator
(kernel-friendly replacement for position-based string functions). -/
def breakAtChar (sep : Char) : List Char → List Char × Option (List Char)
  | [] => ([], none)
  | c :: rest =>
    if c = sep then ([], some rest)
    else
      match breakAtChar sep rest with
      | (a, b) => (c :: a, b)

/-- Split a `gae:"name,opts"` tag at the first comma, as the Go code
does with `strings.Index`. -/
def splitTag (tag : String) : String × String :=
  match breakAtChar ',' tag.data with
  | (n, none) => (⟨n⟩, "")
  | (n, some o) => (⟨n⟩, ⟨o⟩)

/-- Character-list version of `strings.Split`. -/
def splitChar (sep : Char) : List Char → List (List Char)
  | [] => [[]]
  | c :: rest =>
    match splitChar sep rest, decide (c = sep) with
    | r, true => [] :: r
    | seg :: ss, false => (c :: seg) :: ss
    | [], false => [[c]]

/-- Go `validPropertyName`: one or more dot-separated Go identifiers
(ASCII letters model `unicode.IsLetter`, which is all the repository
uses). -/
def validSegment (s : List Char) : Bool :=
  match s with
  | [] => false
  | c :: cs =>
    (c == '_' || c.isAlpha) && cs.all (fun ch => ch == '_' || ch.isAlpha || ch.isDigit)

def validPropertyName (name : String) : Bool :=
  name != "" && (splitChar '.' name.data).all validSegment

/-- Modelled from the spec: the `PropertyTypeOf` validity check on a
field's (element) type — "a field type that does not match any
recognized primitive type ... is a schema error".  The recognized
primitives are the supported property value kinds (with small integer
kinds upconverted to int64); `Toggle` is meta-only. -/
def validPropertyTy : GoTy → Bool
  | .intT | .boolT | .stringT | .floatT | .timeT | .geoT | .keyIface | .uint8T => true
  | .sliceT .uint8T => true
  | _ => false

/-- Go `convertMeta`: the default value carried by a meta tag, checked
against the field's type (errors are returned as message strings;
`strconv.ParseInt` is modelled by `String.toInt?` plus the int64 range
check). -/
def convertMeta (val : String) (t : GoTy) : Except String MetaVal :=
  match t with
  | .stringT => .ok (.strM val)
  | .intT =>
    if val = "" then .ok (.intM 0)
    else
      match val.toInt? with
      | some i =>
        if -(2 ^ 63) ≤ i ∧ i < 2 ^ 63 then .ok (.intM i) else .error "value out of range"
      | none => .error "invalid syntax"
  | .toggleT =>
    match val with
    | "on" | "On" | "true" => .ok (.boolM true)
    | "off" | "Off" | "false" => .ok (.boolM false)
    | _ => .error ("Toggle field has bad/missing default, got " ++ val)
  | _ => .error "helper: meta field with bad type/value"

structure BuildSt where
  byMeta : List (String × Nat)
  byName : List (String × Nat)
  byIndex : List StructTag
  hasSlice : Bool

/-- Register the flattened names of a nested codec under the parent,
failing on the first collision (the Go loop at the end of
`getStructCodecLocked`). -/
def addSubNames (i : Nat) (pfxName : String) :
    List (String × Nat) → List (String × Nat) → Except String (List (String × Nat))
  | bn, [] => .ok bn
  | bn, (rel, _) :: rest =>
    let absName := pfxName ++ rel
    if (lookupAL bn absName).isSome then .error absName
    else addSubNames i pfxName (bn ++ [(absName, i)]) rest

def idxOf (opts : String) : IndexSetting :=
  if opts = "noindex" then .NoIndex else .ShouldIndex

/-- The per-field loop body of `getStructCodecLocked`: processes the
fields in order, accumulating the tables, stopping at the first schema
error.  `rec` performs the recursive codec construction for a nested
struct type (threading the cache). -/
def buildFields (rec : CodecCache → String → StructCodec × CodecCache) :
    List GoField → BuildSt → CodecCache → Option SchemaErr × BuildSt × CodecCache
  | [], st, cache => (none, st, cache)
  | f :: rest, st, cache =>
    let i := st.byIndex.length
    let (name0, opts) := splitTag f.tag
    let canSet := f.exported
    let skipWith : Option MetaVal → List (String × Nat) →
        Option SchemaErr × BuildSt × CodecCache :=
      fun mv bm =>
        buildFields rec rest
          { st with
            byMeta := bm,
            byIndex := st.byIndex ++ [.mk "-" .ShouldIndex false none false mv canSet f.ftype] }
          cache
    let proceed : String → Option SchemaErr × BuildSt × CodecCache := fun name =>
      if !canSet then skipWith none st.byMeta
      else
        let isSlice : Bool :=
          match f.ftype with
          | .sliceT e => e != .uint8T
          | _ => false
        let substructTy : Option String :=
          match f.ftype with
          | .structRef tn => some tn
          | .sliceT (.structRef tn) => some tn
          | _ => none
        match f.ftype with
        | .otherIface _ => (some (.nonConcreteInterface f.fname), st, cache)
        | _ =>
          match substructTy with
          | some tn =>
            match rec cache tn with
            | (sub, cache2) =>
              match sub.problem with
              | some .recursiveSentinel => (some (.recursiveField f.fname), st, cache2)
              | some e => (some (.fieldProblem f.fname e), st, cache2)
              | none =>
                if isSlice && sub.hasSlice then (some (.sliceOfSlices f.fname), st, cache2)
                else
                  let pname := if name ≠ "" then name ++ "." else name
                  match addSubNames i pname st.byName sub.byName with
                  | .error dup => (some (.repeatedName dup), st, cache2)
                  | .ok bn2 =>
                    buildFields rec rest
                      { byMeta := st.byMeta, byName := bn2,
                        byIndex := st.byIndex ++
                          [.mk pname (idxOf opts) isSlice (some sub) false none canSet f.ftype],
                        hasSlice := st.hasSlice || isSlice || sub.hasSlice }
                      cache2
          | none =>
            let tElem : GoTy :=
              if isSlice then
                match f.ftype with
                | .sliceT e => e
                | t => t
              else f.ftype
            if !(validPropertyTy tElem) then (some (.invalidFieldType name), st, cache)
            else if (lookupAL st.byName name).isSome then (some (.repeatedName name), st, cache)
            else
              buildFields rec rest
                { byMeta := st.byMeta, byName := st.byName ++ [(name, i)],
                  byIndex := st.byIndex ++
                    [.mk name (idxOf opts) isSlice none false none canSet f.ftype],
                  hasSlice := st.hasSlice || isSlice }
                cache
    if name0 = "" then
      proceed (if f.anonymous then "" else f.fname)
    else if name0.data.headD ' ' = '$' then
      let mname : String := ⟨name0.data.drop 1⟩
      if (lookupAL st.byMeta mname).isSome then (some (.metaDup mname), st, cache)
      else
        match convertMeta opts f.ftype with
        | .error msg => (some (.metaBadType mname msg), st, cache)
        | .ok mv => skipWith (some mv) (st.byMeta ++ [(mname, i)])
    else if name0 = "-" then
      skipWith none st.byMeta
    else if !(validPropertyName name0) then (some (.invalidName name0), st, cache)
    else proceed name0

/-- Go `getStructCodecLocked`: memoized, cycle-detecting schema
construction.  The in-progress sentinel is published in the cache before
the field walk; a recursive hit on it is the cycle signal.  On any
schema error the tables are cleared (the `defer`) but the codec stays
cached with its problem.  `fuel` only bounds the recursion depth; any
fuel at least the number of distinct struct types involved behaves like
the Go code. -/
def getStructCodecLocked : Nat → TypeEnv → CodecCache → String → StructCodec × CodecCache
  | 0, _, cache, _ => (.mk [] [] [] false (some .outOfFuel), cache)
  | fuel + 1, env, cache, t =>
    match lookupAL cache t with
    | some c => (c, cache)
    | none =>
      match lookupAL env t with
      | none =>
        let c := StructCodec.mk [] [] [] false (some (.unknownType t))
        (c, setAL cache t c)
      | some fields =>
        let cache1 := setAL cache t (.mk [] [] [] false (some .recursiveSentinel))
        match buildFields (fun cc tn => getStructCodecLocked fuel env cc tn)
            fields ⟨[], [], [], false⟩ cache1 with
        | (some e, stE, cache2) =>
          let c := StructCodec.mk [] [] [] stE.hasSlice (some e)
          (c, setAL cache2 t c)
        | (none, stF, cache2) =>
          let c := StructCodec.mk stF.byMeta stF.byName stF.byIndex stF.hasSlice none
          (c, setAL cache2 t c)

/-- Convenience wrapper: build the codec for `t` against a fresh cache. -/
def getStructCodec (fuel : Nat) (env : TypeEnv) (t : String) : StructCodec :=
  (getStructCodecLocked fuel env [] t).1

/-! Concrete record types used to instantiate the claims about the
mapping engine. -/

/-- A record with three int64 fields. -/
def partialEnv : TypeEnv :=
  [("P", [⟨"A", "", true, false, .intT⟩, ⟨"B", "", true, false, .intT⟩,
          ⟨"C", "", true, false, .intT⟩])]

def partialCodec : StructCodec := getStructCodec 2 partialEnv "P"

/-- A record with one field of each null-accepting shape. -/
def nullEnv : TypeEnv :=
  [("N", [⟨"A", "", true, false, .intT⟩, ⟨"B", "", true, false, .boolT⟩,
          ⟨"F", "", true, false, .floatT⟩, ⟨"S", "", true, false, .stringT⟩,
          ⟨"K", "", true, false, .keyIface⟩])]

def nullCodec : StructCodec := getStructCodec 2 nullEnv "N"

/-- A record `S` with a nested record field `I` of type `T = {X int64}`. -/
def flattenEnv : TypeEnv :=
  [("S", [⟨"I", "", true, false, .structRef "T"⟩]),
   ("T", [⟨"X", "", true, false, .intT⟩])]

def flattenCodec : StructCodec := getStructCodec 4 flattenEnv "S"

/-- Like `flattenEnv`, plus a plain field tagged `I.X`, colliding with
the flattened nested name. -/
def collisionEnv : TypeEnv :=
  [("S2", [⟨"I", "", true, false, .structRef "T"⟩,
           ⟨"IX", "I.X", true, false, .intT⟩]),
   ("T", [⟨"X", "", true, false, .intT⟩])]

/-- A two-type cycle: `A = {FB []B}`, `B = {FA []A}`. -/
def cycleEnv : TypeEnv :=
  [("A", [⟨"FB", "", true, false, .sliceT (.structRef "B")⟩]),
   ("B", [⟨"FA", "", true, false, .sliceT (.structRef "A")⟩])]

/-- A record with an unexported (lowercase, unsettable) middle field. -/
def unexpEnv : TypeEnv :=
  [("U", [⟨"A", "", true, false, .intT⟩, ⟨"b", "", false, false, .intT⟩,
          ⟨"C", "", true, false, .intT⟩])]

def unexpCodec : StructCodec := getStructCodec 2 unexpEnv "U"

/-- A record with a single repeated int64 field, used to hit the
indexed-property ceiling. -/
def bigEnv : TypeEnv := [("Big", [⟨"A", "", true, false, .sliceT .intT⟩])]

def bigCodec : StructCodec := getStructCodec 2 bigEnv "Big"

/-! ### Theorems -/

theorem beBytesMinAux_eq (n : Nat) : ∀ fuel, n ≤ fuel → beBytesMinAux fuel n = beBytesMin n := by
  induction n using Nat.strong_induction_on with
  | _ n ih =>
    intro fuel hf
    cases n with
    | zero => cases fuel <;> rfl
    | succ m =>
      cases fuel with
      | zero => omega
      | succ f =>
        have hq : (m + 1) / 256 < m + 1 := Nat.div_lt_self (by omega) (by omega)
        have e1 := ih ((m + 1) / 256) hq f (by omega)
        have e2 := ih ((m + 1) / 256) hq m (by omega)
        show beBytesMinAux f ((m + 1) / 256) ++ [(m + 1) % 256] =
          beBytesMinAux m ((m + 1) / 256) ++ [(m + 1) % 256]
        rw [e1, e2]

/-- Unfolding rule of `beBytesMin` for positive arguments. -/
theorem beBytesMin_succ (n : Nat) (h : n ≠ 0) :
    beBytesMin n = beBytesMin (n / 256) ++ [n % 256] := by
  cases n with
  | zero => omega
  | succ m =>
    show beBytesMinAux m ((m + 1) / 256) ++ [(m + 1) % 256] = _
    have h2 : (m + 1) / 256 ≤ m := by
      have : (m + 1) / 256 < m + 1 := Nat.div_lt_self (by omega) (by omega)
      omega
    rw [beBytesMinAux_eq ((m + 1) / 256) m h2]

/-- The big-endian digits of `n` evaluate back to `n`. -/
theorem fromBE_beBytesMin (n : Nat) : fromBE (beBytesMin n) = n := by
  induction n using Nat.strong_induction_on with
  | _ n ih =>
    rcases Nat.eq_zero_or_pos n with h | h
    · subst h; rfl
    · rw [beBytesMin_succ n (by omega)]
      have hq : n / 256 < n := Nat.div_lt_self (by omega) (by omega)
      have := ih (n / 256) hq
      simp only [fromBE, List.foldl_append] at *
      rw [this]
      simp only [List.foldl]
      omega

/-- Varint round trip: `readUint` undoes `writeUint` and consumes exactly
the varint's bytes. -/
theorem readUint_writeUint (n : Nat) (rest : Buf) :
    readUint (writeUint n ++ rest) = (.ok n, rest) := by
  show readUint ((beBytesMin n).length :: (beBytesMin n ++ rest)) = (.ok n, rest)
  have hle : (beBytesMin n).length ≤ (beBytesMin n ++ rest).length := by
    simp [List.length_append]
  simp only [readUint]
  rw [if_pos hle, List.take_left, List.drop_left, fromBE_beBytesMin]

/-- Length-prefixed byte-sequence round trip, valid whenever the payload
is within the 2 MiB decode ceiling. -/
theorem readBytes_writeBytes (b : List Nat) (rest : Buf)
    (h : b.length ≤ 2 * 1024 * 1024) :
    readBytes (writeBytes b ++ rest) = (.ok b, rest) := by
  unfold readBytes writeBytes
  rw [List.append_assoc, readUint_writeUint]
  simp only
  rw [if_neg (by omega)]
  rw [List.take_left, List.drop_left]
  simp

/-- XOR with a two-power above the argument is addition. -/
theorem xor_two_pow_eq_add {n w : Nat} (h : w < 2 ^ n) : w ^^^ 2 ^ n = w + 2 ^ n := by
  apply Nat.eq_of_testBit_eq
  intro i
  rw [Nat.testBit_xor]
  rcases lt_trichotomy i n with hi | hi | hi
  · rw [Nat.testBit_two_pow_of_ne (by omega), Nat.add_comm, Nat.testBit_two_pow_add_gt hi]
    simp
  · subst hi
    rw [Nat.add_comm, Nat.testBit_two_pow_add_eq, Nat.testBit_two_pow_self,
      Nat.testBit_lt_two_pow h]
    rfl
  · have hb : w + 2 ^ n < 2 ^ i := by
      calc w + 2 ^ n < 2 ^ n + 2 ^ n := by omega
      _ = 2 ^ (n + 1) := by ring
      _ ≤ 2 ^ i := Nat.pow_le_pow_right (by omega) (by omega)
    rw [Nat.testBit_two_pow_of_ne (by omega), Nat.testBit_lt_two_pow hb,
      Nat.testBit_lt_two_pow (h.trans (Nat.pow_lt_pow_right (by omega) hi))]
    rfl

/-- XOR with the all-ones mask of width `n` is complement within `2^n`. -/
theorem xor_two_pow_sub_one_eq {n w : Nat} (h : w < 2 ^ n) :
    w ^^^ (2 ^ n - 1) = 2 ^ n - 1 - w := by
  have h2 : 2 ^ n - 1 - w = 2 ^ n - (w + 1) := by omega
  rw [h2]
  apply Nat.eq_of_testBit_eq
  intro i
  rw [Nat.testBit_xor, Nat.testBit_two_pow_sub_one, Nat.testBit_two_pow_sub_succ h]
  by_cases hi : i < n
  · simp [hi]
  · have hw : Nat.testBit w i = false :=
      Nat.testBit_lt_two_pow (h.trans_le (Nat.pow_le_pow_right (by omega) (by omega)))
    simp [hi, hw]

/-- Arithmetic characterization of the `writeFloat64` transform:
non-negative patterns get the sign bit set, negative patterns are
complemented. -/
theorem floatXform_eq {w : Nat} (h : w < 2 ^ 64) :
    floatXform w = if w < 2 ^ 63 then w + 2 ^ 63 else 2 ^ 64 - 1 - w := by
  unfold floatXform
  rw [Nat.shiftRight_eq_div_pow]
  by_cases hs : w < 2 ^ 63
  · have hd : w / 2 ^ 63 = 0 := Nat.div_eq_of_lt hs
    rw [hd, if_pos hs]
    have : (2 ^ 64 - 0) % 2 ^ 64 = 0 := by norm_num
    rw [this]
    have : (0 : Nat) ||| 1 <<< 63 = 2 ^ 63 := by decide
    rw [this, xor_two_pow_eq_add hs]
  · have hd : w / 2 ^ 63 = 1 := by omega
    rw [hd, if_neg hs]
    have : (2 ^ 64 - 1) % 2 ^ 64 ||| 1 <<< 63 = 2 ^ 64 - 1 := by decide
    rw [this, xor_two_pow_sub_one_eq h]

/-- The transform stays within 64 bits. -/
theorem floatXform_lt {w : Nat} (h : w < 2 ^ 64) : floatXform w < 2 ^ 64 := by
  rw [floatXform_eq h]
  by_cases hs : w < 2 ^ 63
  · rw [if_pos hs]; omega
  · rw [if_neg hs]; omega

/-- The `readFloat64` transform undoes the `writeFloat64` transform. -/
theorem floatXformInv_floatXform {w : Nat} (h : w < 2 ^ 64) :
    floatXformInv (floatXform w) = w := by
  unfold floatXformInv
  rw [floatXform_eq h, Nat.shiftRight_eq_div_pow]
  by_cases hs : w < 2 ^ 63
  · rw [if_pos hs]
    have hd : (w + 2 ^ 63) / 2 ^ 63 = 1 := by omega
    rw [hd]
    have : (1 + 2 ^ 64 - 1) % 2 ^ 64 ||| 1 <<< 63 = 2 ^ 63 := by decide
    rw [this, ← xor_two_pow_eq_add hs, Nat.xor_cancel_right]
  · rw [if_neg hs]
    have hd : (2 ^ 64 - 1 - w) / 2 ^ 63 = 0 := by omega
    rw [hd]
    have : (0 + 2 ^ 64 - 1) % 2 ^ 64 ||| 1 <<< 63 = 2 ^ 64 - 1 := by decide
    rw [this, ← xor_two_pow_sub_one_eq h, Nat.xor_cancel_right]

/-- Big-endian 8-byte round trip. -/
theorem fromBE_toBE8 {v : Nat} (h : v < 2 ^ 64) : fromBE (toBE8 v) = v := by
  simp only [toBE8, fromBE, List.foldl, Nat.shiftRight_eq_div_pow]
  omega

/-- Float64 encode/decode round trip on any bit pattern. -/
theorem readFloat64_writeFloat64 (w : Nat) (rest : Buf) (h : w < 2 ^ 64) :
    readFloat64 (writeFloat64 w ++ rest) = (.ok w, rest) := by
  unfold readFloat64 writeFloat64
  have hlen : (toBE8 (floatXform w)).length = 8 := rfl
  have hne : ((toBE8 (floatXform w) ++ rest).isEmpty) = false := by
    simp [toBE8]
  rw [if_neg (by simp [hne])]
  have htake : (toBE8 (floatXform w) ++ rest).take 8 = toBE8 (floatXform w) := by
    rw [← hlen, List.take_left]
  have hdrop : (toBE8 (floatXform w) ++ rest).drop 8 = rest := by
    rw [← hlen, List.drop_left]
  rw [htake, hdrop, hlen]
  simp only [Nat.sub_self, List.replicate, List.append_nil]
  rw [fromBE_toBE8 (floatXform_lt h), floatXformInv_floatXform h]

/-- The Go byte layout agrees with the recursive big-endian digits. -/
theorem toBE8_eq (v : Nat) : toBE8 v = beBytesF 8 v := by
  simp [toBE8, beBytesF, Nat.shiftRight_eq_div_pow]

/-- Lexicographic order of base-`c` digit pairs. -/
theorem digit_lex_lt {c p1 q1 p2 q2 : Nat} (h1 : q1 < c) (h2 : q2 < c) :
    q1 + c * p1 < q2 + c * p2 ↔ (p1 < p2 ∨ (p1 = p2 ∧ q1 < q2)) := by
  constructor
  · intro h
    rcases Nat.lt_trichotomy p1 p2 with hp | hp | hp
    · exact Or.inl hp
    · subst hp
      right
      exact ⟨rfl, by omega⟩
    · exfalso
      have hcp : c * (p2 + 1) ≤ c * p1 := Nat.mul_le_mul_left _ (by omega)
      have h3 : c * (p2 + 1) = c * p2 + c := Nat.mul_succ c p2
      omega
  · intro h
    rcases h with hp | ⟨hp, hq⟩
    · have hcp : c * (p1 + 1) ≤ c * p2 := Nat.mul_le_mul_left _ (by omega)
      have h3 : c * (p1 + 1) = c * p1 + c := Nat.mul_succ c p1
      omega
    · subst hp
      omega

/-- Lexicographic comparison of `k`-byte big-endian strings is modular
comparison of the encoded values. -/
theorem lexLtb_beBytesF (k : Nat) : ∀ x y : Nat,
    (lexLtb (beBytesF k x) (beBytesF k y) = true ↔ x % 256 ^ k < y % 256 ^ k) := by
  induction k with
  | zero => intro x y; simp [beBytesF, lexLtb, Nat.mod_one]
  | succ k ih =>
    intro x y
    have hx : x % 256 ^ (k + 1) = x % 256 ^ k + 256 ^ k * (x / 256 ^ k % 256) := by
      rw [pow_succ, Nat.mod_mul]
    have hy : y % 256 ^ (k + 1) = y % 256 ^ k + 256 ^ k * (y / 256 ^ k % 256) := by
      rw [pow_succ, Nat.mod_mul]
    rw [hx, hy, digit_lex_lt (Nat.mod_lt _ (by positivity)) (Nat.mod_lt _ (by positivity))]
    simp only [beBytesF, lexLtb, Bool.or_eq_true, Bool.and_eq_true, decide_eq_true_eq, ih x y]

/-- Lexicographic comparison of 8-byte big-endian strings is unsigned
64-bit comparison. -/
theorem lexLtb_toBE8 {x y : Nat} (hx : x < 2 ^ 64) (hy : y < 2 ^ 64) :
    lexLtb (toBE8 x) (toBE8 y) = true ↔ x < y := by
  rw [toBE8_eq, toBE8_eq, lexLtb_beBytesF 8 x y]
  have h8 : (256 : ℕ) ^ 8 = 2 ^ 64 := by norm_num
  rw [h8, Nat.mod_eq_of_lt hx, Nat.mod_eq_of_lt hy]

/-- For small patterns the exponent field is a plain division. -/
theorem floatExpo_of_lt {w : Nat} (h : w < 2 ^ 63) : floatExpo w = w / 2 ^ 52 := by
  unfold floatExpo
  rw [Nat.shiftRight_eq_div_pow]
  omega

/-- Clearing the sign bit leaves the exponent field unchanged. -/
theorem floatExpo_sub {w : Nat} (h1 : 2 ^ 63 ≤ w) : floatExpo (w - 2 ^ 63) = floatExpo w := by
  unfold floatExpo
  rw [Nat.shiftRight_eq_div_pow, Nat.shiftRight_eq_div_pow]
  omega

/-- Clearing the sign bit leaves the mantissa field unchanged. -/
theorem floatMant_sub {w : Nat} (h1 : 2 ^ 63 ≤ w) : floatMant (w - 2 ^ 63) = floatMant w := by
  unfold floatMant
  omega

/-- Clearing the sign bit leaves the magnitude unchanged. -/
theorem floatMagScaled_sub {w : Nat} (h1 : 2 ^ 63 ≤ w) :
    floatMagScaled (w - 2 ^ 63) = floatMagScaled w := by
  unfold floatMagScaled
  rw [floatExpo_sub h1, floatMant_sub h1]

/-- Clearing the sign bit does not change NaN-ness. -/
theorem floatIsNaN_sub {w : Nat} (h1 : 2 ^ 63 ≤ w) :
    floatIsNaN (w - 2 ^ 63) = floatIsNaN w := by
  unfold floatIsNaN
  rw [floatExpo_sub h1, floatMant_sub h1]

theorem floatSign_eq_zero {w : Nat} (h : w < 2 ^ 63) : floatSign w = 0 := by
  unfold floatSign
  rw [Nat.shiftRight_eq_div_pow]
  omega

theorem floatSign_eq_one {w : Nat} (h1 : 2 ^ 63 ≤ w) (h2 : w < 2 ^ 64) : floatSign w = 1 := by
  unfold floatSign
  rw [Nat.shiftRight_eq_div_pow]
  omega

theorem floatIsNaN_iff {w : Nat} :
    floatIsNaN w = false ↔ (floatExpo w = 2047 → floatMant w = 0) := by
  unfold floatIsNaN
  rcases Nat.decEq (floatExpo w) 2047 with he | he <;>
    rcases Nat.decEq (floatMant w) 0 with hm | hm <;>
      simp [he, hm]

/-- Core arithmetic fact behind magnitude monotonicity: the scaled
magnitude is strictly monotone in the lexicographic (exponent, mantissa)
order, as long as the larger operand is not a NaN pattern. -/
theorem magCore_mono {e1 m1 e2 m2 : Nat} (hm1 : m1 < 2 ^ 52) (hm2 : m2 < 2 ^ 52)
    (he2 : e2 ≤ 2047) (hn2 : e2 = 2047 → m2 = 0)
    (hlex : e1 < e2 ∨ (e1 = e2 ∧ m1 < m2)) :
    (if e1 = 2047 then 2 ^ 3000 else if e1 = 0 then 2 * m1 else (2 ^ 52 + m1) * 2 ^ e1) <
    (if e2 = 2047 then 2 ^ 3000 else if e2 = 0 then 2 * m2 else (2 ^ 52 + m2) * 2 ^ e2) := by
  have he1 : e1 ≤ 2047 := by omega
  by_cases h247 : e2 = 2047
  · -- the target is infinity; the source is finite and strictly below 2^3000
    have hm2z : m2 = 0 := hn2 h247
    have he1' : e1 ≠ 2047 := by omega
    rw [if_pos h247, if_neg he1']
    by_cases h1z : e1 = 0
    · rw [if_pos h1z]
      calc 2 * m1 < 2 ^ 53 := by omega
      _ < 2 ^ 3000 := Nat.pow_lt_pow_right (by omega) (by omega)
    · rw [if_neg h1z]
      calc (2 ^ 52 + m1) * 2 ^ e1 < 2 ^ 53 * 2 ^ e1 :=
            (Nat.mul_lt_mul_right (Nat.pos_pow_of_pos _ (by omega))).mpr (by omega)
      _ = 2 ^ (53 + e1) := by rw [pow_add]
      _ ≤ 2 ^ 2100 := Nat.pow_le_pow_right (by omega) (by omega)
      _ < 2 ^ 3000 := Nat.pow_lt_pow_right (by omega) (by omega)
  · have he2' : e2 ≤ 2046 := by omega
    have he1' : e1 ≠ 2047 := by omega
    rw [if_neg h247, if_neg he1']
    rcases hlex with hlt | ⟨heq, hm⟩
    · -- strictly smaller exponent
      have h2z : e2 ≠ 0 := by omega
      rw [if_neg h2z]
      by_cases h1z : e1 = 0
      · rw [if_pos h1z]
        calc 2 * m1 < 2 ^ 53 := by omega
        _ = 2 ^ 52 * 2 ^ 1 := by norm_num
        _ ≤ 2 ^ 52 * 2 ^ e2 :=
              Nat.mul_le_mul (Nat.le_refl _) (Nat.pow_le_pow_right (by omega) (by omega))
        _ ≤ (2 ^ 52 + m2) * 2 ^ e2 := Nat.mul_le_mul (by omega) (Nat.le_refl _)
      · rw [if_neg h1z]
        calc (2 ^ 52 + m1) * 2 ^ e1 < 2 ^ 53 * 2 ^ e1 :=
              (Nat.mul_lt_mul_right (Nat.pos_pow_of_pos _ (by omega))).mpr (by omega)
        _ = 2 ^ 52 * 2 ^ (e1 + 1) := by rw [pow_succ]; ring
        _ ≤ 2 ^ 52 * 2 ^ e2 :=
              Nat.mul_le_mul (Nat.le_refl _) (Nat.pow_le_pow_right (by omega) (by omega))
        _ ≤ (2 ^ 52 + m2) * 2 ^ e2 := Nat.mul_le_mul (by omega) (Nat.le_refl _)
    · -- equal exponents, smaller mantissa
      subst heq
      by_cases h1z : e1 = 0
      · rw [if_pos h1z, if_pos h1z]
        omega
      · rw [if_neg h1z, if_neg h1z]
        exact (Nat.mul_lt_mul_right (Nat.pos_pow_of_pos _ (by omega))).mpr (by omega)

/-- Strict monotonicity of the scaled magnitude on non-negative non-NaN
patterns: larger bit pattern means strictly larger magnitude. -/
theorem floatMagScaled_strictMono {u v : Nat} (hu : u < 2 ^ 63) (hv : v < 2 ^ 63)
    (hnv : floatIsNaN v = false) (huv : u < v) :
    floatMagScaled u < floatMagScaled v := by
  rw [floatIsNaN_iff] at hnv
  rw [floatExpo_of_lt hv] at hnv
  unfold floatMant at hnv
  unfold floatMagScaled floatMant
  rw [floatExpo_of_lt hu, floatExpo_of_lt hv]
  apply magCore_mono (by omega) (by omega) (by omega) hnv
  omega

/-- The scaled magnitude reflects the pattern order on non-negative
non-NaN patterns. -/
theorem floatMagScaled_lt_iff {u v : Nat} (hu : u < 2 ^ 63) (hv : v < 2 ^ 63)
    (hnu : floatIsNaN u = false) (hnv : floatIsNaN v = false) :
    floatMagScaled u < floatMagScaled v ↔ u < v := by
  constructor
  · intro h
    by_contra hle
    rcases Nat.lt_or_ge v u with hvu | hvu
    · exact absurd h (Nat.not_lt.mpr (Nat.le_of_lt (floatMagScaled_strictMono hv hu hnu hvu)))
    · have : u = v := by omega
      subst this
      exact absurd h (by omega)
  · exact floatMagScaled_strictMono hu hv hnv

/-- C1: the float64 encoder is order preserving: for IEEE-754 bit
patterns a, b denoting non-NaN float64 values with a < b as floats, the
byte sequence `writeFloat64 a` is lexicographically less than
`writeFloat64 b` compared as unsigned bytes. -/
theorem writeFloat64_order_preserving (a b : Nat) (ha : a < 2 ^ 64) (hb : b < 2 ^ 64)
    (hna : floatIsNaN a = false) (hnb : floatIsNaN b = false)
    (hab : floatLt a b) :
    lexLtb (writeFloat64 a) (writeFloat64 b) = true := by
  unfold writeFloat64
  rw [lexLtb_toBE8 (floatXform_lt ha) (floatXform_lt hb)]
  rw [floatXform_eq ha, floatXform_eq hb]
  unfold floatLt floatVal at hab
  by_cases hsa : a < 2 ^ 63 <;> by_cases hsb : b < 2 ^ 63
  · -- both non-negative: pattern order follows magnitude order
    rw [if_pos hsa, if_pos hsb]
    rw [floatSign_eq_zero hsa, floatSign_eq_zero hsb] at hab
    simp only [if_neg (by omega : ¬ (0 : ℕ) = 1), one_mul] at hab
    have hmag : floatMagScaled a < floatMagScaled b := by exact_mod_cast hab
    have := (floatMagScaled_lt_iff hsa hsb hna hnb).mp hmag
    omega
  · -- a non-negative, b negative: contradicts a < b
    exfalso
    rw [floatSign_eq_zero hsa, floatSign_eq_one (by omega) hb] at hab
    norm_num at hab
    have h1 : (0 : Int) ≤ (floatMagScaled a : Int) := Int.ofNat_nonneg _
    have h2 : (0 : Int) ≤ (floatMagScaled b : Int) := Int.ofNat_nonneg _
    omega
  · -- a negative, b non-negative: complemented codes sort below
    rw [if_neg hsa, if_pos hsb]
    omega
  · -- both negative: magnitude order reverses the pattern order
    rw [if_neg hsa, if_neg hsb]
    rw [floatSign_eq_one (by omega) ha, floatSign_eq_one (by omega) hb] at hab
    norm_num at hab
    have hmag : floatMagScaled b < floatMagScaled a := by omega
    rw [← floatMagScaled_sub (show 2 ^ 63 ≤ a by omega),
      ← floatMagScaled_sub (show 2 ^ 63 ≤ b by omega)] at hmag
    have hna' : floatIsNaN (a - 2 ^ 63) = false := by
      rw [floatIsNaN_sub (by omega)]; exact hna
    have hnb' : floatIsNaN (b - 2 ^ 63) = false := by
      rw [floatIsNaN_sub (by omega)]; exact hnb
    have hsub := (floatMagScaled_lt_iff (by omega) (by omega) hnb' hna').mp hmag
    omega

/-- Timestamp round trip: decoding recovers the time truncated (not
rounded) to microsecond resolution, for representable times (nanoseconds
in range, non-negative seconds, microsecond count within 64 bits). -/
theorem readTime_writeTime (t : GoTime) (rest : Buf) (hsec : 0 ≤ t.sec)
    (hns : t.nsec < 1000000000)
    (hfit : t.sec.toNat * 1000000 + t.nsec / 1000 < 2 ^ 64) :
    readTime (writeTime t ++ rest) = (.ok ⟨t.sec, t.nsec / 1000 * 1000⟩, rest) := by
  unfold writeTime readTime
  have hu : u64ofInt t.sec = t.sec.toNat := by
    unfold u64ofInt
    omega
  rw [hu, Nat.mod_eq_of_lt hfit, readUint_writeUint]
  have hv6 : (t.sec.toNat * 1000000 + t.nsec / 1000) / 1000000 = t.sec.toNat := by omega
  have hv7 : (t.sec.toNat * 1000000 + t.nsec / 1000) % 1000000 = t.nsec / 1000 := by omega
  show (Except.ok (GoTime.mk _ _), rest) = _
  rw [hv6, hv7]
  have hsec' : Int.ofNat t.sec.toNat = t.sec := by
    show (t.sec.toNat : Int) = t.sec
    omega
  rw [hsec']

/-- Geo-point round trip: two float64 round trips in sequence. -/
theorem readGeoPoint_writeGeoPoint (lat lng : Nat) (rest : Buf)
    (hla : lat < 2 ^ 64) (hlg : lng < 2 ^ 64) :
    readGeoPoint (writeGeoPoint lat lng ++ rest) = (.ok (lat, lng), rest) := by
  unfold readGeoPoint writeGeoPoint
  rw [List.append_assoc]
  simp only [readFloat64_writeFloat64 lat (writeFloat64 lng ++ rest) hla,
    readFloat64_writeFloat64 lng rest hlg]

/-- C1: the float64 encoder preserves order: for any two IEEE-754 bit
patterns denoting non-NaN float64 values with a < b as floats, the byte
sequence `writeFloat64 a` is lexicographically less than `writeFloat64 b`
compared as unsigned bytes.  NaN patterns are excluded (their ordering is
implementation-defined). -/
theorem C1_writeFloat64_order (a b : Nat) (ha : a < 2 ^ 64) (hb : b < 2 ^ 64)
    (hna : floatIsNaN a = false) (hnb : floatIsNaN b = false)
    (hab : floatLt a b) :
    lexLtb (writeFloat64 a) (writeFloat64 b) = true :=
  writeFloat64_order_preserving a b ha hb hna hnb hab

/-- Witness for C1 at the concrete pair 1.0 < 2.0 (bit patterns
0x3FF0000000000000 and 0x4000000000000000). -/
theorem C1_writeFloat64_order_witness :
    lexLtb (writeFloat64 0x3FF0000000000000) (writeFloat64 0x4000000000000000) = true :=
  C1_writeFloat64_order 0x3FF0000000000000 0x4000000000000000
    (by norm_num) (by norm_num) (by decide) (by decide) (by decide)

/-- C2 (amended): decode is a left inverse of encode for every supported
primitive value within the decoder's representable range: byte sequences
and strings of length at most 2 MiB, arbitrary float64 bit patterns,
geo-points, and timestamps with in-range nanoseconds and non-negative,
64-bit-representable microsecond magnitude (timestamps are recovered
truncated to microseconds). -/
theorem C2_decode_encode_roundtrip :
    (∀ b rest, b.length ≤ 2 * 1024 * 1024 →
      readBytes (writeBytes b ++ rest) = (.ok b, rest)) ∧
    (∀ s rest, s.length ≤ 2 * 1024 * 1024 →
      readString (writeString s ++ rest) = (.ok s, rest)) ∧
    (∀ w rest, w < 2 ^ 64 → readFloat64 (writeFloat64 w ++ rest) = (.ok w, rest)) ∧
    (∀ lat lng rest, lat < 2 ^ 64 → lng < 2 ^ 64 →
      readGeoPoint (writeGeoPoint lat lng ++ rest) = (.ok (lat, lng), rest)) ∧
    (∀ t rest, 0 ≤ t.sec → t.nsec < 1000000000 →
      t.sec.toNat * 1000000 + t.nsec / 1000 < 2 ^ 64 →
      readTime (writeTime t ++ rest) = (.ok ⟨t.sec, t.nsec / 1000 * 1000⟩, rest)) := by
  refine ⟨readBytes_writeBytes, ?_, fun w rest h => readFloat64_writeFloat64 w rest h,
    fun lat lng rest h1 h2 => readGeoPoint_writeGeoPoint lat lng rest h1 h2,
    fun t rest h1 h2 h3 => readTime_writeTime t rest h1 h2 h3⟩
  intro s rest h
  show readBytes (writeBytes s ++ rest) = (.ok s, rest)
  exact readBytes_writeBytes s rest h

/-- Witness for C2 on concrete values of each supported kind. -/
theorem C2_decode_encode_roundtrip_witness :
    readBytes (writeBytes [1, 2, 3] ++ [9]) = (.ok [1, 2, 3], [9]) ∧
    readString (writeString [65, 66] ++ []) = (.ok [65, 66], []) ∧
    readFloat64 (writeFloat64 0x3FF0000000000000 ++ [5]) = (.ok 0x3FF0000000000000, [5]) ∧
    readGeoPoint (writeGeoPoint 0x3FF0000000000000 0xBFF0000000000000 ++ []) =
      (.ok (0x3FF0000000000000, 0xBFF0000000000000), []) ∧
    readTime (writeTime ⟨5, 1500⟩ ++ [4]) = (.ok ⟨5, 1000⟩, [4]) :=
  ⟨C2_decode_encode_roundtrip.1 [1, 2, 3] [9] (by norm_num),
   C2_decode_encode_roundtrip.2.1 [65, 66] [] (by norm_num),
   C2_decode_encode_roundtrip.2.2.1 0x3FF0000000000000 [5] (by norm_num),
   C2_decode_encode_roundtrip.2.2.2.1 0x3FF0000000000000 0xBFF0000000000000 []
     (by norm_num) (by norm_num),
   C2_decode_encode_roundtrip.2.2.2.2 ⟨5, 1500⟩ [4] (by decide) (by decide) (by decide)⟩

/-- Oversized length announcements are rejected, leaving the buffer
exactly as it was after the length prefix. -/
theorem readBytes_sizeLimit (n : Nat) (rest : Buf) (h : 2 * 1024 * 1024 < n) :
    readBytes (writeUint n ++ rest) = (.error (.sizeLimit n), rest) := by
  unfold readBytes
  rw [readUint_writeUint]
  show (if n > 2 * 1024 * 1024 then _ else _) = _
  rw [if_pos h]

/-- A length announcement exceeding the remaining buffer is a decode
error (the attempted read consumes what remains). -/
theorem readBytes_shortRead (n : Nat) (buf : Buf) (h1 : n ≤ 2 * 1024 * 1024)
    (h2 : buf.length < n) :
    readBytes (writeUint n ++ buf) = (.error (.shortRead n buf.length), []) := by
  unfold readBytes
  rw [readUint_writeUint]
  show (if n > 2 * 1024 * 1024 then _
    else if (List.take n buf).length ≠ n then
      (Except.error (CodecErr.shortRead n (List.take n buf).length), List.drop n buf)
    else _) = _
  rw [if_neg (by omega), List.take_of_length_le (by omega),
    List.drop_of_length_le (by omega), if_pos (by omega)]

/-- C2 counterexample to the unrestricted claim: a byte sequence one
byte longer than 2 MiB encodes fine but does not decode back; the
decoder rejects it with the size-limit error. -/
theorem C2_roundtrip_counterexample :
    (readBytes (writeBytes (List.replicate (2 * 1024 * 1024 + 1) 0))).1 ≠
      .ok (List.replicate (2 * 1024 * 1024 + 1) 0) ∧
    readBytes (writeBytes (List.replicate (2 * 1024 * 1024 + 1) 0)) =
      (.error (.sizeLimit (2 * 1024 * 1024 + 1)), List.replicate (2 * 1024 * 1024 + 1) 0) := by
  have h1 : writeBytes (List.replicate (2 * 1024 * 1024 + 1) 0) =
      writeUint (2 * 1024 * 1024 + 1) ++ List.replicate (2 * 1024 * 1024 + 1) 0 := by
    unfold writeBytes
    rw [List.length_replicate]
  have h : readBytes (writeBytes (List.replicate (2 * 1024 * 1024 + 1) 0)) =
      (.error (.sizeLimit (2 * 1024 * 1024 + 1)), List.replicate (2 * 1024 * 1024 + 1) 0) := by
    rw [h1, readBytes_sizeLimit _ _ (by norm_num)]
  exact ⟨by rw [h]; exact fun hc => Except.noConfusion hc, h⟩

/-- C6: decoding a length prefix announcing more than 2 MiB fails with
the size-limit error and consumes nothing past the prefix; a prefix
within the ceiling but announcing more bytes than remain fails with the
short-read decode error (consuming what remains). -/
theorem C6_readBytes_limits (n : Nat) (buf : Buf) :
    (2 * 1024 * 1024 < n →
      readBytes (writeUint n ++ buf) = (.error (.sizeLimit n), buf)) ∧
    (n ≤ 2 * 1024 * 1024 → buf.length < n →
      readBytes (writeUint n ++ buf) = (.error (.shortRead n buf.length), [])) :=
  ⟨fun h => readBytes_sizeLimit n buf h,
   fun h1 h2 => readBytes_shortRead n buf h1 h2⟩

/-- Witness for C6: a 2 MiB + 1 announcement is rejected leaving the
buffer, and announcing 3 bytes with only 1 present is a short read. -/
theorem C6_readBytes_limits_witness :
    readBytes (writeUint (2 * 1024 * 1024 + 1) ++ [7]) =
      (.error (.sizeLimit (2 * 1024 * 1024 + 1)), [7]) ∧
    readBytes (writeUint 3 ++ [1]) = (.error (.shortRead 3 1), []) :=
  ⟨(C6_readBytes_limits (2 * 1024 * 1024 + 1) [7]).1 (by norm_num),
   (C6_readBytes_limits 3 [1]).2 (by norm_num) (by norm_num)⟩

example : readUint (writeUint 300 ++ [7]) = (.ok 300, [7]) := by decide
example : readBytes (writeBytes [1, 2, 3] ++ [9]) = (.ok [1, 2, 3], [9]) := by decide
example : readFloat64 (writeFloat64 (2 ^ 62) ++ [5]) = (.ok (2 ^ 62), [5]) := by decide
example : lexLtb (writeFloat64 0x3FF0000000000000) (writeFloat64 0x4000000000000000) = true := by
  decide
example : floatLt 0x3FF0000000000000 0x4000000000000000 := by decide

example : structPLS_Load 3 (.mk [] [("A", 0)] [.mk "A" .ShouldIndex false none false none true .intT] false none)
    [.intF 7] [("A", [Property.mk (.int64V 42) .ShouldIndex])] = ([.intF 42], none) := rfl

example : structPLS_save 2 (.mk [] [("A", 0)] [.mk "A" .ShouldIndex false none false none true .intT] false none)
    [.intF 7] [] "" .ShouldIndex = .ok ([("A", [Property.mk (.int64V 7) .ShouldIndex])], 1) := rfl

example :
    (getStructCodec 3 [("T", [⟨"X", "", true, false, .intT⟩])] "T").byName = [("X", 0)] := rfl
example :
    (getStructCodec 3 [("T", [⟨"X", "", true, false, .intT⟩])] "T").problem = none := by decide
example :
    (getStructCodec 3 [("S", [⟨"Next", "", true, false, .sliceT (.structRef "S")⟩])] "S").problem
      = some (.recursiveField "Next") := by decide
example :
    (getStructCodec 4 [("S", [⟨"I", "", true, false, .structRef "T"⟩]),
      ("T", [⟨"X", "", true, false, .intT⟩])] "S").byName = [("I.X", 0)] := rfl

/-- C4: a recorded schema problem is permanent: with the stored error in
place, Load, Save (outer and inner), GetMeta and SetMeta all fail
immediately with exactly that error, before touching the (cleared) field
tables. -/
theorem C4_schema_error_permanent (fuel : Nat) (c : StructCodec) (v : List FieldVal)
    (e : SchemaErr) (h : c.problem = some e) :
    (∀ pm, structPLS_Load fuel c v pm = (v, some (.problem e))) ∧
    (∀ withMeta, structPLS_Save (fuel + 1) c v withMeta = .error (.problem e)) ∧
    (∀ pm pfx is, structPLS_save (fuel + 1) c v pm pfx is = .error (.problem e)) ∧
    (∀ key, structPLS_GetMeta c v key = .error (.problem e)) ∧
    (∀ key val, structPLS_SetMeta c v key val = .error (.problem e)) := by
  have hs : ∀ pm pfx is, structPLS_save (fuel + 1) c v pm pfx is = .error (.problem e) := by
    intro pm pfx is
    unfold structPLS_save
    rw [h]
  refine ⟨fun pm => ?_, fun withMeta => ?_, hs, fun key => ?_, fun key val => ?_⟩
  · unfold structPLS_Load
    rw [h]
  · unfold structPLS_Save
    rw [hs [] "" .ShouldIndex]
  · unfold structPLS_GetMeta
    rw [h]
  · unfold structPLS_SetMeta
    rw [h]

/-- Witness for C4 at a concrete poisoned codec. -/
theorem C4_schema_error_permanent_witness :
    structPLS_Load 1 (.mk [] [] [] false (some (.invalidName "9x"))) [] [] =
      ([], some (.problem (.invalidName "9x"))) ∧
    structPLS_Save 1 (.mk [] [] [] false (some (.invalidName "9x"))) [] true =
      .error (.problem (.invalidName "9x")) ∧
    structPLS_GetMeta (.mk [] [] [] false (some (.invalidName "9x"))) [] "kind" =
      .error (.problem (.invalidName "9x")) ∧
    structPLS_SetMeta (.mk [] [] [] false (some (.invalidName "9x"))) [] "kind" (.intM 3) =
      .error (.problem (.invalidName "9x")) :=
  have t := C4_schema_error_permanent 0 (.mk [] [] [] false (some (.invalidName "9x"))) []
    (.invalidName "9x") rfl
  ⟨t.1 [], t.2.1 true, t.2.2.2.1 "kind", t.2.2.2.2 "kind" (.intM 3)⟩

/-- The values produced by loading one property list are independent of the
error accumulator, and errors accumulate by appending. -/
theorem loadPropsList_acc (fuel : Nat) (c : StructCodec) (name : String) (mult : Bool) :
    ∀ props i v errs,
    (loadPropsList fuel c name mult props i v errs).1 =
      (loadPropsList fuel c name mult props i v []).1 ∧
    (loadPropsList fuel c name mult props i v errs).2 =
      errs ++ (loadPropsList fuel c name mult props i v []).2 := by
  intro props
  induction props with
  | nil =>
    intro i v errs
    exact ⟨rfl, by simp [loadPropsList]⟩
  | cons p rest ih =>
    intro i v errs
    unfold loadPropsList
    cases hli : loadInnerF fuel c v i name p mult with
    | mk v2 reason =>
      cases reason with
      | none =>
        dsimp only
        exact ⟨(ih (i + 1) v2 errs).1.trans ((ih (i + 1) v2 []).1).symm,
          ((ih (i + 1) v2 errs).2).trans (by rw [(ih (i + 1) v2 []).2])⟩
      | some r =>
        dsimp only
        simp only [List.nil_append]
        constructor
        · exact ((ih (i + 1) v2 (errs ++ [⟨name, r⟩])).1).trans
            ((ih (i + 1) v2 ([⟨name, r⟩])).1).symm
        · have h1 := (ih (i + 1) v2 (errs ++ [⟨name, r⟩])).2
          have h2 := (ih (i + 1) v2 [⟨name, r⟩]).2
          rw [h1, h2]
          simp

/-- Step lemma: loadEntries on a cons processes the head entry and recurses. -/
theorem loadEntries_cons (fuel : Nat) (c : StructCodec) (name : String)
    (props : List Property) (rest : List (String × List Property))
    (v : List FieldVal) (errs : List ErrFieldMismatch) :
    loadEntries fuel c ((name, props) :: rest) v errs =
      loadEntries fuel c rest
        (loadPropsList fuel c name (decide (1 < props.length)) props 0 v errs).1
        (loadPropsList fuel c name (decide (1 < props.length)) props 0 v errs).2 := by
  conv_lhs => unfold loadEntries

/-- Entry processing is independent of the error accumulator; mismatch errors
accumulate by appending. -/
theorem loadEntries_acc (fuel : Nat) (c : StructCodec) :
    ∀ pm v errs,
    (loadEntries fuel c pm v errs).1 = (loadEntries fuel c pm v []).1 ∧
    (loadEntries fuel c pm v errs).2 = errs ++ (loadEntries fuel c pm v []).2 := by
  intro pm
  induction pm with
  | nil =>
    intro v errs
    exact ⟨rfl, by simp [loadEntries]⟩
  | cons entry rest ih =>
    intro v errs
    obtain ⟨name, props⟩ := entry
    rw [loadEntries_cons, loadEntries_cons]
    have hv := (loadPropsList_acc fuel c name (decide (1 < props.length)) props 0 v errs).1
    have he := (loadPropsList_acc fuel c name (decide (1 < props.length)) props 0 v errs).2
    rw [hv, he]
    constructor
    · exact (ih _ _).1.trans ((ih _ _).1).symm
    · rw [(ih _ ((errs ++ (loadPropsList fuel c name (decide (1 < props.length)) props 0 v []).2))).2,
        (ih _ ((loadPropsList fuel c name (decide (1 < props.length)) props 0 v []).2)).2]
      simp

/-- Entry processing is compositional: a property map splits into sequential
passes, so entries after a mismatched one are still processed. -/
theorem loadEntries_append (fuel : Nat) (c : StructCodec) :
    ∀ pm1 pm2 v errs,
    loadEntries fuel c (pm1 ++ pm2) v errs =
      loadEntries fuel c pm2 (loadEntries fuel c pm1 v errs).1
        (loadEntries fuel c pm1 v errs).2 := by
  intro pm1
  induction pm1 with
  | nil => intro pm2 v errs; rfl
  | cons entry rest ih =>
    intro pm2 v errs
    obtain ⟨name, props⟩ := entry
    rw [List.cons_append, loadEntries_cons, loadEntries_cons, ih]

/-- C5: (1) with a property map holding one shape-mismatched value (a
string for int64 field B) and two valid values, Load populates both
valid fields, keeps going past the mismatch, and returns exactly one
field-mismatch error naming B, as a multi-error; (2) in general the
entry-processing loop is compositional over any split of the property
map, so entries after a mismatch are always still processed; and (3)
the values loaded are independent of previously accumulated mismatch
errors, which accumulate by appending and never abort the load. -/
theorem C5_partial_load_tolerance (x y a b c : Int) (s : String) :
    (structPLS_Load 1 partialCodec [.intF a, .intF b, .intF c]
      [("A", [Property.mk (.int64V x) .ShouldIndex]),
       ("B", [Property.mk (.stringV s) .ShouldIndex]),
       ("C", [Property.mk (.int64V y) .ShouldIndex])] =
    ([.intF x, .intF b, .intF y],
     some (.multi [⟨"B", "type mismatch: string versus int64"⟩]))) ∧
    (∀ fuel cod pm1 pm2 v errs,
      loadEntries fuel cod (pm1 ++ pm2) v errs =
        loadEntries fuel cod pm2 (loadEntries fuel cod pm1 v errs).1
          (loadEntries fuel cod pm1 v errs).2) ∧
    (∀ fuel cod pm v errs,
      (loadEntries fuel cod pm v errs).1 = (loadEntries fuel cod pm v []).1 ∧
      (loadEntries fuel cod pm v errs).2 =
        errs ++ (loadEntries fuel cod pm v []).2) :=
  ⟨rfl,
   fun fuel cod pm1 pm2 v errs => loadEntries_append fuel cod pm1 pm2 v errs,
   fun fuel cod pm v errs => loadEntries_acc fuel cod pm v errs⟩

/-- C10 (amended): loading a null property value into int64, bool and
float64 fields is accepted and writes the zero value; a string field and
a key-like interface field also accept null but are left untouched. -/
theorem C10_null_loads (a : Int) (b : Bool) (w : Nat) (s : String) (k : Option String) :
    structPLS_Load 1 nullCodec [.intF a, .boolF b, .floatF w, .stringF s, .keyF k]
      [("A", [Property.mk .nullV .ShouldIndex]),
       ("B", [Property.mk .nullV .ShouldIndex]),
       ("F", [Property.mk .nullV .ShouldIndex]),
       ("S", [Property.mk .nullV .ShouldIndex]),
       ("K", [Property.mk .nullV .ShouldIndex])] =
    ([.intF 0, .boolF false, .floatF 0, .stringF s, .keyF k], none) := rfl

/-- C10 counterexample: loading null into a string field does NOT write
the zero value "" — the prior contents survive (while int/bool/float are
zeroed), refuting the claim that a string field is set to its zero
value. -/
theorem C10_null_string_counterexample :
    structPLS_Load 1 nullCodec [.intF 1, .boolF true, .floatF 5, .stringF "abc", .keyF none]
      [("S", [Property.mk .nullV .ShouldIndex])] =
    ([.intF 1, .boolF true, .floatF 5, .stringF "abc", .keyF none], none) ∧
    (FieldVal.stringF "abc" ≠ FieldVal.stringF "") :=
  ⟨rfl, fun h => by injection h with h2; exact absurd h2 (by decide)⟩

/-- C8: the codec of `S = {I T}` with `T = {X int64}` addresses the
nested value as `I.X`: the name table holds exactly `I.X`, save produces
the flattened name, load consumes it back into the nested field; and a
collision between a flattened `I.X` and a plain field tagged `I.X` is a
repeated-property-name schema error at construction time. -/
theorem C8_nested_flattening (x a : Int) :
    flattenCodec.problem = none ∧
    flattenCodec.byName = [("I.X", 0)] ∧
    structPLS_save 2 flattenCodec [.subF [.intF x]] [] "" .ShouldIndex =
      .ok ([("I.X", [Property.mk (.int64V x) .ShouldIndex])], 1) ∧
    structPLS_Load 2 flattenCodec [.subF [.intF a]]
      [("I.X", [Property.mk (.int64V x) .ShouldIndex])] = ([.subF [.intF x]], none) ∧
    (getStructCodec 4 collisionEnv "S2").problem = some (.repeatedName "I.X") ∧
    (getStructCodec 4 collisionEnv "S2").byName = [] :=
  ⟨rfl, rfl, rfl, rfl, rfl, rfl⟩

/-- Frame property of `loadInner`: a field index never produced by the
name table is never written. -/
theorem loadInnerF_preserves (fuel : Nat) (c : StructCodec) (v : List FieldVal)
    (idx : Nat) (name : String) (p : Property) (rs : Bool) (i : Nat)
    (h : ∀ n j, lookupAL c.byName n = some j → j ≠ i) :
    ((loadInnerF fuel c v idx name p rs).1).get? i = v.get? i := by
  cases fuel with
  | zero => rfl
  | succ f =>
    have hset : ∀ (x : FieldVal) (fi : Nat), fi ≠ i → (v.set fi x).get? i = v.get? i :=
      fun x fi hne => by simp [List.getElem?_set_ne hne]
    unfold loadInnerF
    cases hl : lookupAL c.byName name with
    | none => rfl
    | some fi =>
      have hne : fi ≠ i := h name fi hl
      simp only
      repeat' split
      all_goals first
        | rfl
        | (exact hset _ _ hne)

/-- Frame property lifted to one entry's value list. -/
theorem loadPropsList_preserves (fuel : Nat) (c : StructCodec) (name : String)
    (multiple : Bool) (i : Nat)
    (h : ∀ n j, lookupAL c.byName n = some j → j ≠ i) :
    ∀ props start v errs,
      ((loadPropsList fuel c name multiple props start v errs).1).get? i = v.get? i := by
  intro props
  induction props with
  | nil => intro start v errs; rfl
  | cons p rest ih =>
    intro start v errs
    unfold loadPropsList
    cases hli : loadInnerF fuel c v start name p multiple with
    | mk v2 reason =>
      have hv2 : v2.get? i = v.get? i := by
        have := loadInnerF_preserves fuel c v start name p multiple i h
        rw [hli] at this
        exact this
      cases reason with
      | none =>
        show (loadPropsList fuel c name multiple rest (start + 1) v2 errs).1.get? i = v.get? i
        exact (ih (start + 1) v2 errs).trans hv2
      | some r =>
        show (loadPropsList fuel c name multiple rest (start + 1) v2
          (errs ++ [⟨name, r⟩])).1.get? i = v.get? i
        exact (ih (start + 1) v2 (errs ++ [⟨name, r⟩])).trans hv2

/-- Frame property lifted to the whole property map. -/
theorem loadEntries_preserves (fuel : Nat) (c : StructCodec) (i : Nat)
    (h : ∀ n j, lookupAL c.byName n = some j → j ≠ i) :
    ∀ pm v errs, ((loadEntries fuel c pm v errs).1).get? i = v.get? i := by
  intro pm
  induction pm with
  | nil => intro v errs; rfl
  | cons entry rest ih =>
    intro v errs
    unfold loadEntries
    cases entry with
    | mk name props =>
      cases hlp : loadPropsList fuel c name (decide (1 < props.length)) props 0 v errs with
      | mk v2 errs2 =>
        have hv2 : v2.get? i = v.get? i := by
          have := loadPropsList_preserves fuel c name (decide (1 < props.length)) i h props 0 v errs
          rw [hlp] at this
          exact this
        rw [ih v2 errs2, hv2]

/-- Frame property of `Load` itself. -/
theorem structPLS_Load_preserves (fuel : Nat) (c : StructCodec) (i : Nat)
    (h : ∀ n j, lookupAL c.byName n = some j → j ≠ i) :
    ∀ v pm, ((structPLS_Load fuel c v pm).1).get? i = v.get? i := by
  intro v pm
  unfold structPLS_Load
  cases c.problem with
  | some e => rfl
  | none =>
    simp only
    cases hle : loadEntries fuel c pm v [] with
    | mk v2 errs =>
      have := loadEntries_preserves fuel c i h pm v []
      rw [hle] at this
      exact this

/-- C9: an unexported field is treated exactly like one tagged `-`:
schema construction marks it skipped (tag name `-`, absent from the name
table), Save emits nothing for it (its value does not influence the
output), and Load can never write to it. -/
theorem C9_unexported_field_skipped (x y z : Int) :
    (unexpCodec.byIndex.get? 1).map StructTag.name = some "-" ∧
    unexpCodec.byName = [("A", 0), ("C", 2)] ∧
    structPLS_save 1 unexpCodec [.intF x, .intF y, .intF z] [] "" .ShouldIndex =
      .ok ([("A", [Property.mk (.int64V x) .ShouldIndex]),
            ("C", [Property.mk (.int64V z) .ShouldIndex])], 2) ∧
    (∀ fuel v pm, ((structPLS_Load fuel unexpCodec v pm).1).get? 1 = v.get? 1) := by
  refine ⟨rfl, rfl, rfl, fun fuel v pm => ?_⟩
  apply structPLS_Load_preserves
  intro n j hj
  rw [show unexpCodec.byName = [("A", 0), ("C", 2)] from rfl] at hj
  unfold lookupAL at hj
  split at hj
  · injection hj with hj2
    omega
  · unfold lookupAL at hj
    split at hj
    · injection hj with hj2
      omega
    · unfold lookupAL at hj
      exact absurd hj (by simp)

/-- C7: a type whose field references a type already under construction
is rejected: for any record `S` with a field (of any name) typed `[]S`,
construction stores the recursive-definition error attached to that
field, and a repeated construction attempt returns the identical cached
codec (hence the same error).  A transitive two-type cycle `A → B → A`
is likewise rejected: the field that closes the cycle gets the
recursive-definition error and the outer type wraps it as that field's
problem. -/
theorem C7_recursive_schema_error (rest : TypeEnv) (f : String) :
    ((getStructCodecLocked 3 (("S", [⟨f, "", true, false, .sliceT (.structRef "S")⟩]) :: rest)
      [] "S").1).problem = some (.recursiveField f) ∧
    getStructCodecLocked 1 (("S", [⟨f, "", true, false, .sliceT (.structRef "S")⟩]) :: rest)
      (getStructCodecLocked 3 (("S", [⟨f, "", true, false, .sliceT (.structRef "S")⟩]) :: rest)
        [] "S").2 "S"
      = getStructCodecLocked 3 (("S", [⟨f, "", true, false, .sliceT (.structRef "S")⟩]) :: rest)
        [] "S" ∧
    (getStructCodec 4 cycleEnv "A").problem =
      some (.fieldProblem "FB" (.recursiveField "FA")) ∧
    (getStructCodec 4 cycleEnv "B").problem =
      some (.fieldProblem "FA" (.recursiveField "FB")) :=
  ⟨rfl, rfl, rfl, rfl⟩


/-- One `saveProp` step either aborts with the limit error (exactly when
the running count would exceed the ceiling) or succeeds adding its pure
count. -/
theorem savePropF_spec
    (rec : StructCodec → List FieldVal → PropertyMap → String → IndexSetting →
      Except SaveErr (PropertyMap × Nat))
    (cnt : StructCodec → List FieldVal → IndexSetting → Nat)
    (wt : StructCodec → List FieldVal → Bool)
    (hrec : ∀ sub fs pm name is1, sub.problem = none → wt sub fs = true →
      (20000 < cnt sub fs is1 → rec sub fs pm name is1 = .error .tooManyIndexedProperties) ∧
      (cnt sub fs is1 ≤ 20000 → ∃ pm2, rec sub fs pm name is1 = .ok (pm2, cnt sub fs is1)))
    (st : StructTag) (is1 : IndexSetting) (v : FieldVal) (pm : PropertyMap) (name : String)
    (acc : Nat) (hacc : acc ≤ 20000) (hwt : wtPropF wt st v = true) :
    (20000 < acc + countPropF cnt st is1 v →
      savePropF rec st name is1 v pm acc = .error .tooManyIndexedProperties) ∧
    (acc + countPropF cnt st is1 v ≤ 20000 →
      ∃ pm2, savePropF rec st name is1 v pm acc = .ok (pm2, acc + countPropF cnt st is1 v)) := by
  unfold wtPropF at hwt
  unfold savePropF countPropF
  cases hsub : st.substructCodec with
  | some sub =>
    rw [hsub] at hwt
    cases v with
    | subF fs =>
      dsimp only at hwt ⊢
      simp only [Bool.and_eq_true, beq_iff_eq] at hwt
      obtain ⟨hp, hw⟩ := hwt
      have hr := hrec sub fs pm name is1 hp hw
      constructor
      · intro hover
        by_cases hc : 20000 < cnt sub fs is1
        · rw [hr.1 hc]
        · obtain ⟨pm2, hok⟩ := hr.2 (by omega)
          rw [hok]
          dsimp only
          rw [if_pos hover]
      · intro hle
        obtain ⟨pm2, hok⟩ := hr.2 (by omega)
        rw [hok]
        dsimp only
        rw [if_neg (show ¬ 20000 < acc + cnt sub fs is1 by omega)]
        exact ⟨pm2, rfl⟩
    | intF i => simp at hwt
    | boolF b => simp at hwt
    | stringF s2 => simp at hwt
    | floatF w => simp at hwt
    | bytesF b => simp at hwt
    | timeF t => simp at hwt
    | geoF la ln => simp at hwt
    | keyF k => simp at hwt
    | toggleF t => simp at hwt
    | sliceF es => simp at hwt
  | none =>
    rw [hsub] at hwt
    dsimp only
    obtain ⟨pv, hpv⟩ : ∃ pv, propValueOf v = .ok pv := by
      cases hh : propValueOf v with
      | ok pv => exact ⟨pv, rfl⟩
      | error e =>
        rw [hh] at hwt
        exact absurd hwt (by simp [Except.isOk, Except.toBool])
    rw [hpv]
    dsimp only
    by_cases his : is1 = .ShouldIndex
    · subst his
      simp only [eq_self_iff_true, if_true]
      constructor
      · intro hover
        rw [if_pos hover]
      · intro hle
        rw [if_neg (show ¬ 20000 < acc + 1 by omega)]
        exact ⟨_, rfl⟩
    · simp only [if_neg his]
      constructor
      · intro hover
        exact absurd hover (by omega)
      · intro hle
        exact ⟨_, rfl⟩

/-- The slice-element walk of `save`, specified like `savePropF_spec`. -/
theorem saveElemsF_spec
    (rec : StructCodec → List FieldVal → PropertyMap → String → IndexSetting →
      Except SaveErr (PropertyMap × Nat))
    (cnt : StructCodec → List FieldVal → IndexSetting → Nat)
    (wt : StructCodec → List FieldVal → Bool)
    (hrec : ∀ sub fs pm name is1, sub.problem = none → wt sub fs = true →
      (20000 < cnt sub fs is1 → rec sub fs pm name is1 = .error .tooManyIndexedProperties) ∧
      (cnt sub fs is1 ≤ 20000 → ∃ pm2, rec sub fs pm name is1 = .ok (pm2, cnt sub fs is1)))
    (st : StructTag) (name : String) (is1 : IndexSetting) :
    ∀ es pm acc, acc ≤ 20000 → es.all (wtPropF wt st) = true →
    (20000 < acc + (es.map (countPropF cnt st is1)).sum →
      saveElemsF rec st name is1 es pm acc = .error .tooManyIndexedProperties) ∧
    (acc + (es.map (countPropF cnt st is1)).sum ≤ 20000 →
      ∃ pm2, saveElemsF rec st name is1 es pm acc =
        .ok (pm2, acc + (es.map (countPropF cnt st is1)).sum)) := by
  intro es
  induction es with
  | nil =>
    intro pm acc hacc _
    constructor
    · intro h
      simp only [List.map_nil, List.sum_nil] at h
      exact absurd h (by omega)
    · intro _
      refine ⟨pm, ?_⟩
      simp only [List.map_nil, List.sum_nil, Nat.add_zero]
      rfl
  | cons e rest ih =>
    intro pm acc hacc hall
    simp only [List.all_cons, Bool.and_eq_true] at hall
    obtain ⟨he, hrest⟩ := hall
    have hp := savePropF_spec rec cnt wt hrec st is1 e pm name acc hacc he
    have hsum : ((e :: rest).map (countPropF cnt st is1)).sum =
        countPropF cnt st is1 e + (rest.map (countPropF cnt st is1)).sum := by
      simp [List.map_cons, List.sum_cons]
    rw [hsum]
    constructor
    · intro hover
      unfold saveElemsF
      by_cases hc : 20000 < acc + countPropF cnt st is1 e
      · rw [hp.1 hc]
      · obtain ⟨pm2, hok⟩ := hp.2 (by omega)
        rw [hok]
        dsimp only
        exact (ih pm2 (acc + countPropF cnt st is1 e) (by omega) hrest).1 (by omega)
    · intro hle
      unfold saveElemsF
      obtain ⟨pm2, hok⟩ := hp.2 (by omega)
      rw [hok]
      dsimp only
      obtain ⟨pm3, hok3⟩ := (ih pm2 (acc + countPropF cnt st is1 e) (by omega) hrest).2 (by omega)
      refine ⟨pm3, ?_⟩
      rw [hok3]
      congr 1
      ext
      · rfl
      omega

/-- The field walk of `save`, specified like `savePropF_spec`. -/
theorem saveFieldsF_spec
    (rec : StructCodec → List FieldVal → PropertyMap → String → IndexSetting →
      Except SaveErr (PropertyMap × Nat))
    (cnt : StructCodec → List FieldVal → IndexSetting → Nat)
    (wt : StructCodec → List FieldVal → Bool)
    (hrec : ∀ sub fs pm name is1, sub.problem = none → wt sub fs = true →
      (20000 < cnt sub fs is1 → rec sub fs pm name is1 = .error .tooManyIndexedProperties) ∧
      (cnt sub fs is1 ≤ 20000 → ∃ pm2, rec sub fs pm name is1 = .ok (pm2, cnt sub fs is1)))
    (pfx : String) (is : IndexSetting) :
    ∀ l pm acc, acc ≤ 20000 → wtFieldsF wt l = true →
    (20000 < acc + countFieldsF cnt l is →
      saveFieldsF rec l pm pfx is acc = .error .tooManyIndexedProperties) ∧
    (acc + countFieldsF cnt l is ≤ 20000 →
      ∃ pm2, saveFieldsF rec l pm pfx is acc = .ok (pm2, acc + countFieldsF cnt l is)) := by
  intro l
  induction l with
  | nil =>
    intro pm acc hacc _
    constructor
    · intro h
      unfold countFieldsF at h
      exact absurd h (by omega)
    · intro _
      refine ⟨pm, ?_⟩
      show Except.ok (pm, acc) = _
      unfold countFieldsF
      rw [Nat.add_zero]
  | cons hd rest ih =>
    intro pm acc hacc hall
    obtain ⟨st, fv⟩ := hd
    unfold wtFieldsF at hall
    simp only [Bool.and_eq_true, Bool.or_eq_true, beq_iff_eq] at hall
    obtain ⟨hhd, hrest⟩ := hall
    unfold saveFieldsF countFieldsF
    by_cases hname : st.name = "-"
    · rw [if_pos hname, if_pos hname, Nat.zero_add]
      exact ih pm acc hacc hrest
    · rw [if_neg hname, if_neg hname]
      have hbody := hhd.resolve_left hname
      by_cases hsl : st.isSlice = true
      · rw [if_pos hsl] at hbody ⊢
        rw [if_pos hsl]
        cases fv with
        | sliceF es =>
          dsimp only at hbody ⊢
          have hel := saveElemsF_spec rec cnt wt hrec st (pfx ++ st.name)
            (if st.idxSetting = .NoIndex then .NoIndex else is) es pm acc hacc hbody
          constructor
          · intro hover
            by_cases hc : 20000 < acc +
                (es.map (countPropF cnt st (if st.idxSetting = .NoIndex then .NoIndex else is))).sum
            · rw [hel.1 hc]
            · obtain ⟨pm2, hok⟩ := hel.2 (by omega)
              rw [hok]
              dsimp only
              exact (ih pm2
                (acc + (es.map (countPropF cnt st
                  (if st.idxSetting = .NoIndex then .NoIndex else is))).sum)
                (by omega) hrest).1 (by omega)
          · intro hle
            obtain ⟨pm2, hok⟩ := hel.2 (by omega)
            rw [hok]
            dsimp only
            obtain ⟨pm3, hok3⟩ := (ih pm2
              (acc + (es.map (countPropF cnt st
                (if st.idxSetting = .NoIndex then .NoIndex else is))).sum)
              (by omega) hrest).2 (by omega)
            refine ⟨pm3, ?_⟩
            rw [hok3]
            congr 1
            ext
            · rfl
            omega
        | intF i => exact absurd hbody (by simp)
        | boolF b => exact absurd hbody (by simp)
        | stringF s2 => exact absurd hbody (by simp)
        | floatF w => exact absurd hbody (by simp)
        | bytesF b => exact absurd hbody (by simp)
        | timeF t => exact absurd hbody (by simp)
        | geoF la ln => exact absurd hbody (by simp)
        | keyF k => exact absurd hbody (by simp)
        | toggleF t => exact absurd hbody (by simp)
        | subF fs => exact absurd hbody (by simp)
      · rw [if_neg hsl] at hbody ⊢
        rw [if_neg hsl]
        have hp := savePropF_spec rec cnt wt hrec st
          (if st.idxSetting = .NoIndex then .NoIndex else is) fv pm (pfx ++ st.name) acc hacc hbody
        constructor
        · intro hover
          by_cases hc : 20000 < acc +
              countPropF cnt st (if st.idxSetting = .NoIndex then .NoIndex else is) fv
          · rw [hp.1 hc]
          · obtain ⟨pm2, hok⟩ := hp.2 (by omega)
            rw [hok]
            dsimp only
            exact (ih pm2
              (acc + countPropF cnt st (if st.idxSetting = .NoIndex then .NoIndex else is) fv)
              (by omega) hrest).1 (by omega)
        · intro hle
          obtain ⟨pm2, hok⟩ := hp.2 (by omega)
          rw [hok]
          dsimp only
          obtain ⟨pm3, hok3⟩ := (ih pm2
            (acc + countPropF cnt st (if st.idxSetting = .NoIndex then .NoIndex else is) fv)
            (by omega) hrest).2 (by omega)
          refine ⟨pm3, ?_⟩
          rw [hok3]
          congr 1
          ext
          · rfl
          omega

/-- The inner save of a problem-free codec on a well-typed value errors
with the limit error exactly when the should-index count exceeds 20,000,
and otherwise succeeds returning that count. -/
theorem structPLS_save_spec : ∀ fuel (c : StructCodec) (v : List FieldVal)
    (pm : PropertyMap) (pfx : String) (is : IndexSetting),
    c.problem = none → wellTyped fuel c v = true →
    (20000 < shouldIdxCount fuel c v is →
      structPLS_save fuel c v pm pfx is = .error .tooManyIndexedProperties) ∧
    (shouldIdxCount fuel c v is ≤ 20000 →
      ∃ pm2, structPLS_save fuel c v pm pfx is = .ok (pm2, shouldIdxCount fuel c v is)) := by
  intro fuel
  induction fuel with
  | zero =>
    intro c v pm pfx is hc hwt
    exact absurd hwt (by simp [wellTyped])
  | succ fuel ih =>
    intro c v pm pfx is hc hwt
    unfold wellTyped at hwt
    simp only [Bool.and_eq_true] at hwt
    obtain ⟨hlen, hfields⟩ := hwt
    unfold structPLS_save shouldIdxCount
    rw [hc]
    dsimp only
    have := saveFieldsF_spec (structPLS_save fuel) (shouldIdxCount fuel) (wellTyped fuel)
      (fun sub fs pm2 name2 is2 hp hw => ih sub fs pm2 name2 is2 hp hw)
      pfx is (c.byIndex.zip v) pm 0 (by omega) hfields
    simpa using this

/-- C3: a problem-free, well-typed record whose flattened save would
produce more than 20,000 should-index property values fails save with
the too-many-indexed-properties limit error (and only then: exactly
20,000 saves successfully): the inner save errors if and only if the
pure should-index count exceeds the ceiling. -/
theorem C3_indexed_property_ceiling (fuel : Nat) (c : StructCodec) (v : List FieldVal)
    (pm : PropertyMap) (pfx : String) (is : IndexSetting) (withMeta : Bool)
    (hc : c.problem = none) (hwt : wellTyped fuel c v = true) :
    (structPLS_save fuel c v pm pfx is = .error .tooManyIndexedProperties ↔
      20000 < shouldIdxCount fuel c v is) ∧
    (20000 < shouldIdxCount fuel c v .ShouldIndex →
      structPLS_Save fuel c v withMeta = .error .tooManyIndexedProperties) ∧
    (shouldIdxCount fuel c v .ShouldIndex ≤ 20000 →
      ∃ pm2, structPLS_Save fuel c v false = .ok pm2) := by
  have hspec := structPLS_save_spec fuel c v pm pfx is hc hwt
  have hspec0 := structPLS_save_spec fuel c v [] "" .ShouldIndex hc hwt
  refine ⟨⟨?_, hspec.1⟩, ?_, ?_⟩
  · intro herr
    by_contra hnot
    obtain ⟨pm2, hok⟩ := hspec.2 (by omega)
    rw [hok] at herr
    exact absurd herr (by simp)
  · intro hover
    unfold structPLS_Save
    rw [hspec0.1 hover]
  · intro hle
    obtain ⟨pm2, hok⟩ := hspec0.2 hle
    unfold structPLS_Save
    rw [hok]
    exact ⟨pm2, rfl⟩

/-- Helper: `all` holds on any replicate of a satisfying element. -/
theorem all_replicate_of (p : FieldVal → Bool) (a : FieldVal) (h : p a = true) :
    ∀ n, (List.replicate n a).all p = true := by
  intro n
  induction n with
  | zero => rfl
  | succ m ih => simp [List.replicate, List.all_cons, h, ih]

/-- The single-slice record is well typed at every length. -/
theorem bigWT (n : Nat) :
    wellTyped 1 bigCodec [.sliceF (List.replicate n (.intF 0))] = true := by
  show ((List.replicate n (FieldVal.intF 0)).all
    (wtPropF (wellTyped 0)
      (.mk "A" .ShouldIndex true none false none true (.sliceT .intT)))) && true = true
  have h := all_replicate_of
    (wtPropF (wellTyped 0) (.mk "A" .ShouldIndex true none false none true (.sliceT .intT)))
    (FieldVal.intF 0) rfl n
  simp [h]

/-- The single-slice record produces one should-index value per
element. -/
theorem bigCount (n : Nat) :
    shouldIdxCount 1 bigCodec [.sliceF (List.replicate n (.intF 0))] .ShouldIndex = n := by
  show ((List.replicate n (FieldVal.intF 0)).map
    (countPropF (shouldIdxCount 0)
      (.mk "A" .ShouldIndex true none false none true (.sliceT .intT)) .ShouldIndex)).sum + 0 = n
  rw [Nat.add_zero, List.map_replicate]
  show (List.replicate n 1).sum = n
  simp [List.sum_replicate]

/-- Witness for C3: a record with 20,001 should-index values is
rejected and one with exactly 20,000 saves successfully. -/
theorem C3_witness :
    structPLS_save 1 bigCodec [.sliceF (List.replicate 20001 (.intF 0))] [] "" .ShouldIndex =
      .error .tooManyIndexedProperties ∧
    (∃ pm2, structPLS_Save 1 bigCodec [.sliceF (List.replicate 20000 (.intF 0))] false =
      .ok pm2) :=
  ⟨((C3_indexed_property_ceiling 1 bigCodec [.sliceF (List.replicate 20001 (.intF 0))]
      [] "" .ShouldIndex false rfl (bigWT 20001)).1).mpr
      (by rw [bigCount 20001]; omega),
   (C3_indexed_property_ceiling 1 bigCodec [.sliceF (List.replicate 20000 (.intF 0))]
      [] "" .ShouldIndex false rfl (bigWT 20000)).2.2
      (by rw [bigCount 20000])⟩
